import Mathlib

/-!
Shallow embedding of the Parallax XHash stratum proxy
(`xhash_stratum_proxy.py`) and a verification of its specification.

The proxy bridges GPU miners speaking two stratum dialects to an upstream
getwork node.  We embed the pure protocol logic: the `JobManager` (work
polling, the bounded job cache keyed by job id and by lowercase header
hash), the per-connection `MinerSession` dispatch (dialect detection,
share accounting, submission reconstruction), and the wire messages the
session emits.  Network transport, logging and wall-clock timestamps are
external effects; the upstream RPC results are passed in as explicit
parameters.
-/

/-! ### Python `hex` rendering and `int(s, 16)` parsing -/

/-- Hex digit character for a value below 16 (lowercase, as Python prints). -/
def hexDigitChar (d : Nat) : Char :=
  if d < 10 then Char.ofNat (48 + d) else Char.ofNat (87 + d)

/-- Hex digit list with explicit recursion fuel (a structural-recursion
totality idiom; `n` itself is always enough fuel since each step divides
by 16).  The fuel-exhausted base case is unreachable under `n ≤ fuel`. -/
def toHexCharsF : Nat → Nat → List Char
  | 0, n => [hexDigitChar n]
  | fuel + 1, n =>
    if n < 16 then [hexDigitChar n]
    else toHexCharsF fuel (n / 16) ++ [hexDigitChar (n % 16)]

/-- Hex digit list of a natural number, most significant first, no leading
zeros (the digits Python writes after the `0x`). -/
def toHexChars (n : Nat) : List Char := toHexCharsF n n

/-- Python `hex(n)` for a natural number: `0x` followed by lowercase hex. -/
def pyHex (n : Nat) : String :=
  String.mk (Char.ofNat 48 :: Char.ofNat 120 :: toHexChars n)

/-- Numeric value of a hex digit character.  Characters outside
`0-9a-fA-F` map to 0; on such characters Python `int(s, 16)` raises, and
the proxy only ever parses the job ids it created with `hex`, which are
well formed (see the cache invariant below). -/
def hexDigitVal (c : Char) : Nat :=
  if 48 ≤ c.toNat ∧ c.toNat ≤ 57 then c.toNat - 48
  else if 97 ≤ c.toNat ∧ c.toNat ≤ 102 then c.toNat - 87
  else if 65 ≤ c.toNat ∧ c.toNat ≤ 70 then c.toNat - 55
  else 0

/-- Python `str.lower()` for the ASCII hex strings involved here. -/
def pyLower (s : String) : String := String.mk (s.data.map Char.toLower)

/-- Python `str.startswith("0x")`. -/
def startsWith0x (s : String) : Bool :=
  match s.data with
  | '0' :: 'x' :: _ => true
  | _ => false

/-- Strip a leading `0x` or `0X`, as Python `int(s, 16)` accepts. -/
def stripHex0x : List Char → List Char
  | '0' :: 'x' :: rest => rest
  | '0' :: 'X' :: rest => rest
  | l => l

/-- Python `int(s, 16)` on the well-formed inputs the proxy produces
(`hex` output).  Total by mapping junk digits to 0. -/
def int16 (s : String) : Nat :=
  (stripHex0x s.data).foldl (fun a c => 16 * a + hexDigitVal c) 0

/-- Whether a character is a hex digit. -/
def isHexDigitChar (c : Char) : Bool :=
  (48 ≤ c.toNat && c.toNat ≤ 57) || (97 ≤ c.toNat && c.toNat ≤ 102) ||
    (65 ≤ c.toNat && c.toNat ≤ 70)

/-- Python `int(s, 16)` where failure matters: returns `none` where Python
raises `ValueError` (empty digit string or a non-hex character).  Used for
the miner-facing boundary parse in `send_stratum_job`.  (Python also
tolerates surrounding whitespace, a sign and underscores; those forms do
not occur in 32-byte boundary hex strings and are not modelled.) -/
def pyInt16? (s : String) : Option Nat :=
  let t : List Char := stripHex0x s.data
  if t.isEmpty then none
  else if t.all isHexDigitChar then
    some (t.foldl (fun a c => 16 * a + hexDigitVal c) 0)
  else none

/-! ### Python `dict` as an insertion-ordered association list

Python dicts preserve insertion order; assignment to an existing key keeps
its position, `pop` removes it.  The job manager relies on key order only
through `sorted(...)`, and its dicts always have distinct keys. -/

/-- `d.get(k)` / `d[k]`. -/
def dictGet {α : Type} : List (String × α) → String → Option α
  | [], _ => none
  | p :: d, k => if p.1 = k then some p.2 else dictGet d k

/-- `d[k] = v`: replace in place if present, else append. -/
def dictSet {α : Type} : List (String × α) → String → α → List (String × α)
  | [], k, v => [(k, v)]
  | p :: d, k, v => if p.1 = k then (k, v) :: d else p :: dictSet d k v

/-- `d.pop(k, None)` (the removal part; the looked-up value is read with
`dictGet` first). -/
def dictPop {α : Type} : List (String × α) → String → List (String × α)
  | [], _ => []
  | p :: d, k => if p.1 = k then dictPop d k else p :: dictPop d k

/-! ### Job tracking (`Job`, `JobManager`) -/

/-- A work unit.  The `created` wall-clock timestamp of the source is
diagnostic only and not modelled. -/
structure Job where
  job_id : String
  header_hash : String
  seed_hash : String
  boundary : String
deriving Repr, DecidableEq

/-- The mutable state of `JobManager`: `jobs` maps job id to job,
`_by_header` maps lowercase header hash to job, `current_job` points at
the newest job, `_counter` feeds `hex` to mint job ids. -/
structure JobManagerState where
  jobs : List (String × Job)
  current_job : Option Job
  counter : Nat
  by_header : List (String × Job)
deriving Repr, DecidableEq

/-- A fresh `JobManager`. -/
def initJM : JobManagerState :=
  { jobs := [], current_job := none, counter := 0, by_header := [] }

/-- Outcome of one upstream `eth_submitWork` RPC call: the boolean verdict,
or an exception (transport failure or RPC-level error), carried as the
detail string that Python would interpolate. -/
inductive RpcOutcome where
  | ok (verdict : Bool)
  | exn (detail : String)
deriving Repr, DecidableEq

/-- The sort key relation used by `sorted(self.jobs.keys(), key=lambda x:
int(x, 16))`. -/
def keyLe (a b : String) : Prop := int16 a ≤ int16 b

instance : DecidableRel keyLe := fun a b => Nat.decLe _ _

instance : IsTotal String keyLe := ⟨fun a b => Nat.le_total _ _⟩

instance : IsTrans String keyLe := ⟨fun _ _ _ => Nat.le_trans⟩

/-- The pruning loop of `poll_work`: for each old id, pop it from `jobs`
and, when it was present, pop its lowercase header hash from `_by_header`. -/
def pruneIds : List String → List (String × Job) → List (String × Job) →
    List (String × Job) × List (String × Job)
  | [], jobs, by_header => (jobs, by_header)
  | oid :: rest, jobs, by_header =>
    match dictGet jobs oid with
    | some j =>
      pruneIds rest (dictPop jobs oid) (dictPop by_header (pyLower j.header_hash))
    | none => pruneIds rest jobs by_header

/-- `sorted(self.jobs.keys(), key=lambda x: int(x, 16))[:-20]`: all but the
20 numerically largest job ids.  (Python `sorted` is a stable sort, as is
insertion sort; the keys are distinct anyway.) -/
def oldIds (jobs : List (String × Job)) : List String :=
  (List.insertionSort keyLe (jobs.map Prod.fst)).take (jobs.length - 20)

/-- The `if len(self.jobs) > 20` pruning step of `poll_work`. -/
def pruneCache (jobs by_header : List (String × Job)) :
    List (String × Job) × List (String × Job) :=
  if jobs.length > 20 then pruneIds (oldIds jobs) jobs by_header
  else (jobs, by_header)

/-- The new-work branch of `poll_work`: mint a job id from the incremented
counter, build the job, insert it into both maps, set `current_job`, prune
to the 20 numerically largest job ids, return the job. -/
def poll_work_new (s : JobManagerState) (header_hash seed_hash boundary : String) :
    Option Job × JobManagerState :=
  let counter := s.counter + 1
  let job_id := pyHex counter
  let job : Job :=
    { job_id := job_id, header_hash := header_hash,
      seed_hash := seed_hash, boundary := boundary }
  let jobs := dictSet s.jobs job_id job
  let by_header := dictSet s.by_header (pyLower header_hash) job
  let pruned := pruneCache jobs by_header
  (some job,
   { jobs := pruned.1, current_job := some job, counter := counter,
     by_header := pruned.2 })

/-- `JobManager.poll_work`, with the `get_work` RPC result passed in
(`none` models both a transport failure and an RPC error, for which
`get_work` returns `None`; a too-short list is also "no change").  Returns
the new job if the header changed, else `none`, with the updated state. -/
def poll_work (s : JobManagerState) (result : Option (List String)) :
    Option Job × JobManagerState :=
  match result with
  | some (header_hash :: seed_hash :: boundary :: _) =>
    match s.current_job with
    | some cj =>
      if cj.header_hash = header_hash then (none, s)
      else poll_work_new s header_hash seed_hash boundary
    | none => poll_work_new s header_hash seed_hash boundary
  | _ => (none, s)

/-- The header-hash fallback of `find_job`: look up the lowercase hash when
the argument is truthy. -/
def find_job_by_header (s : JobManagerState) (header_hash : Option String) :
    Option Job :=
  match header_hash with
  | some hh => if hh = "" then none else dictGet s.by_header (pyLower hh)
  | none => none

/-- `JobManager.find_job`: by job id if truthy and present, else by
case-insensitive header hash if truthy, else `None`. -/
def find_job (s : JobManagerState) (job_id : Option String)
    (header_hash : Option String) : Option Job :=
  match job_id with
  | some jid =>
    if jid = "" then find_job_by_header s header_hash
    else
      match dictGet s.jobs jid with
      | some j => some j
      | none => find_job_by_header s header_hash
  | none => find_job_by_header s header_hash

/-- Ensure a `0x` prefix.  The argument can be Python `None` (an absent
reconstruction field), in which case `None.startswith` raises
`AttributeError`, modelled by `Except.error`. -/
def normalize0x : Option String → Except Unit String
  | none => Except.error ()
  | some v => Except.ok (if startsWith0x v then v else "0x" ++ v)

/-- `JobManager.submit_solution`: normalize the three fields to carry a
`0x` prefix, forward to the node, and map the verdict to `"accepted"`,
`"rejected"` or an `"error: "`-prefixed string.  `Except.error` is an
uncaught `AttributeError` from normalizing a `None` field (the `try`
in the source only wraps the RPC call). -/
def submit_solution (up : RpcOutcome)
    (nonce header_hash mix_digest : Option String) : Except Unit String :=
  match normalize0x nonce, normalize0x header_hash, normalize0x mix_digest with
  | Except.ok _, Except.ok _, Except.ok _ =>
    match up with
    | RpcOutcome.ok true => Except.ok "accepted"
    | RpcOutcome.ok false => Except.ok "rejected"
    | RpcOutcome.exn e => Except.ok ("error: " ++ e)
  | _, _, _ => Except.error ()

/-- Iterated polling: fold `poll_work` over a list of upstream results. -/
def pollList (rs : List (Option (List String))) (s : JobManagerState) :
    JobManagerState :=
  rs.foldl (fun st r => (poll_work st r).2) s

/-! ### Wire messages

One constructor per JSON shape the session writes; each documents its
rendering.  Responses carry the request id; notifications carry id null. -/

/-- An outbound line.  Renderings:
`result_bool id b` is `{"id": id, "result": b, "error": null}`;
`result_work` is a result whose value is `[headerHash, seedHash, boundary]`;
`result_subscribe` is a result with the fixed subscription tuple
`[[["mining.notify", "xhash_proxy"]], "", "0"]`;
`error id code msg` is `{"id": id, "result": null, "error": [code, msg, null]}`;
`notify_ethproxy` is `{"id": null, "method": "mining.notify", "params":
[headerHash, seedHash, boundary]}`;
`notify_set_difficulty d` is the `mining.set_difficulty` notification with
single argument `d` (the source sends a Python float; we record the exact
rational the source expression denotes);
`notify_stratum` is `{"id": null, "method": "mining.notify", "params":
[jobId, seedHash, headerHash, clean]}`. -/
inductive OutMsg where
  | result_bool (msg_id : Option Nat) (value : Bool)
  | result_work (msg_id : Option Nat) (header_hash seed_hash boundary : String)
  | result_subscribe (msg_id : Option Nat)
  | error (msg_id : Option Nat) (code : Int) (message : String)
  | notify_ethproxy (header_hash seed_hash boundary : String)
  | notify_set_difficulty (difficulty : Rat)
  | notify_stratum (job_id seed_hash header_hash : String) (clean : Bool)
deriving Repr, DecidableEq

/-- A single-quote character, to spell string literals that contain one. -/
def squo : String := String.mk [Char.ofNat 39]

/-- The error message of the unreconstructable-submission reply. -/
def jobNotFoundMsg : String :=
  "Job not found, can" ++ squo ++ "t reconstruct submission"

/-- `MinerSession.send_stratum_job`: parse the boundary (`int(b, 16)` when
truthy, else 1), derive the difficulty, and send `mining.set_difficulty`
followed by `mining.notify`.  `Except.error` is the uncaught `ValueError`
when a non-empty boundary fails to parse as hex. -/
def send_stratum_job (job : Job) (clean : Bool) : Except Unit (List OutMsg) :=
  let boundary_int? : Option Nat :=
    if job.boundary = "" then some 1 else pyInt16? job.boundary
  match boundary_int? with
  | none => Except.error ()
  | some boundary_int =>
    let difficulty : Rat :=
      if boundary_int > 0 then ((2 : Rat) ^ 256 - 1) / (boundary_int : Rat)
      else 1
    Except.ok
      [OutMsg.notify_set_difficulty difficulty,
       OutMsg.notify_stratum job.job_id job.seed_hash job.header_hash clean]

/-- `MinerSession.send_ethproxy_job`. -/
def send_ethproxy_job (job : Job) : List OutMsg :=
  [OutMsg.notify_ethproxy job.header_hash job.seed_hash job.boundary]

/-! ### Miner session -/

/-- Per-connection mutable state (peer address is diagnostic only).
`worker_name` is `Option` because the miner may send JSON null. -/
structure SessionState where
  authorized : Bool
  worker_name : Option String
  protocol : String
  shares_accepted : Nat
  shares_rejected : Nat
  closed : Bool
deriving Repr, DecidableEq

/-- A freshly accepted session. -/
def freshSession : SessionState :=
  { authorized := false, worker_name := some "unknown", protocol := "unknown",
    shares_accepted := 0, shares_rejected := 0, closed := false }

/-- A decoded request line from the miner.  `method` defaults to `""` and
`params` to `[]` when absent, as in `_dispatch`.  Param elements are JSON
strings or null; other JSON values, which the relevant handlers would
treat like null (an `AttributeError` on use), are not modelled. -/
structure InMsg where
  id : Option Nat
  method : String
  params : List (Option String)
deriving Repr, DecidableEq

/-- Python truthiness of a string-or-None value. -/
def truthyOpt : Option String → Bool
  | none => false
  | some v => !(v == "")

/-- Result of dispatching one message: new session state, emitted lines,
and whether an exception escaped the handler (crashing the reader task). -/
def HandlerResult : Type := SessionState × List OutMsg × Bool

/-- `_ethproxy_login`: set the dialect, record the worker, authorize. -/
def ethproxy_login (s : SessionState) (msg_id : Option Nat)
    (params : List (Option String)) : HandlerResult :=
  let s :=
    { s with protocol := "ethproxy",
             worker_name := match params with
                            | [] => some "unknown"
                            | p :: _ => p,
             authorized := true }
  (s, [OutMsg.result_bool msg_id true], false)

/-- `_ethproxy_getwork`: serve the current job or an error. -/
def ethproxy_getwork (jm : JobManagerState) (s : SessionState)
    (msg_id : Option Nat) : HandlerResult :=
  match jm.current_job with
  | some job =>
    (s, [OutMsg.result_work msg_id job.header_hash job.seed_hash job.boundary],
     false)
  | none => (s, [OutMsg.error msg_id (-1) "No work available yet"], false)

/-- `_ethproxy_submitwork`: forward the triple and account the share. -/
def ethproxy_submitwork (up : RpcOutcome) (s : SessionState)
    (msg_id : Option Nat) (params : List (Option String)) : HandlerResult :=
  match params with
  | nonce :: header_hash :: mix_digest :: _ =>
    match submit_solution up nonce header_hash mix_digest with
    | Except.error _ => (s, [], true)
    | Except.ok result =>
      if result = "accepted" then
        ({ s with shares_accepted := s.shares_accepted + 1 },
         [OutMsg.result_bool msg_id true], false)
      else
        ({ s with shares_rejected := s.shares_rejected + 1 },
         [OutMsg.error msg_id (-1) ("Rejected: " ++ result)], false)
  | _ => (s, [OutMsg.error msg_id (-1) "Need [nonce, headerHash, mixDigest]"], false)

/-- `_stratum_subscribe`: set the dialect, reply the subscription tuple,
and push the current job when one exists. -/
def stratum_subscribe (jm : JobManagerState) (s : SessionState)
    (msg_id : Option Nat) : HandlerResult :=
  let s := { s with protocol := "stratum" }
  let outs := [OutMsg.result_subscribe msg_id]
  match jm.current_job with
  | some job =>
    match send_stratum_job job true with
    | Except.ok push => (s, outs ++ push, false)
    | Except.error _ => (s, outs, true)
  | none => (s, outs, false)

/-- `_stratum_authorize`: record the worker, authorize, reply `true`, and
push the current job when one exists.  (It does not set `protocol`.) -/
def stratum_authorize (jm : JobManagerState) (s : SessionState)
    (msg_id : Option Nat) (params : List (Option String)) : HandlerResult :=
  let s :=
    { s with worker_name := match params with
                            | [] => some "unknown"
                            | p :: _ => p,
             authorized := true }
  let outs := [OutMsg.result_bool msg_id true]
  match jm.current_job with
  | some job =>
    match send_stratum_job job true with
    | Except.ok push => (s, outs ++ push, false)
    | Except.error _ => (s, outs, true)
  | none => (s, outs, false)

/-- `_stratum_submit`: authorization and arity checks, job lookup,
reconstruction of missing fields from the cached job, forwarding, and
share accounting. -/
def stratum_submit (jm : JobManagerState) (up : RpcOutcome) (s : SessionState)
    (msg_id : Option Nat) (params : List (Option String)) : HandlerResult :=
  if !s.authorized then (s, [OutMsg.error msg_id 24 "Not authorized"], false)
  else
    match params with
    | _worker :: job_id :: nonce :: rest =>
      let job := find_job jm job_id none
      let hm : Option String × Option String :=
        match rest with
        | hh :: md :: _ => (hh, md)
        | [md] => (job.map Job.header_hash, md)
        | [] => (job.map Job.header_hash, none)
      let header_hash := hm.1
      let mix_digest := hm.2
      if (!truthyOpt header_hash || !truthyOpt mix_digest) && job.isNone then
        (s, [OutMsg.error msg_id 21 jobNotFoundMsg], false)
      else
        match submit_solution up nonce header_hash mix_digest with
        | Except.error _ => (s, [], true)
        | Except.ok result =>
          if result = "accepted" then
            ({ s with shares_accepted := s.shares_accepted + 1 },
             [OutMsg.result_bool msg_id true], false)
          else if result = "job-not-found" then
            ({ s with shares_rejected := s.shares_rejected + 1 },
             [OutMsg.error msg_id 21 "Job not found (stale)"], false)
          else
            ({ s with shares_rejected := s.shares_rejected + 1 },
             [OutMsg.error msg_id 20 ("Rejected: " ++ result)], false)
    | _ => (s, [OutMsg.error msg_id 21 "Not enough parameters"], false)

/-- `MinerSession._dispatch`: route one decoded message.  `jm` is the job
manager state the handlers read; `up` the upstream verdict, should this
message forward a solution.  `_ethproxy_hashrate` forwards best-effort
with errors swallowed and always replies `true`; unknown methods are
acked with `true`. -/
def dispatch (jm : JobManagerState) (up : RpcOutcome) (s : SessionState)
    (msg : InMsg) : HandlerResult :=
  if msg.method = "eth_submitLogin" then ethproxy_login s msg.id msg.params
  else if msg.method = "eth_getWork" then ethproxy_getwork jm s msg.id
  else if msg.method = "eth_submitWork" then
    ethproxy_submitwork up s msg.id msg.params
  else if msg.method = "eth_submitHashrate" then
    (s, [OutMsg.result_bool msg.id true], false)
  else if msg.method = "mining.subscribe" then stratum_subscribe jm s msg.id
  else if msg.method = "mining.authorize" then
    stratum_authorize jm s msg.id msg.params
  else if msg.method = "mining.submit" then
    stratum_submit jm up s msg.id msg.params
  else if msg.method = "mining.extranonce.subscribe" then
    (s, [OutMsg.result_bool msg.id true], false)
  else (s, [OutMsg.result_bool msg.id true], false)

/-- Environment of a single received message: the job manager state at
that moment and the upstream verdict for a forwarded solution. -/
structure StepInput where
  jm : JobManagerState
  up : RpcOutcome
  msg : InMsg

/-- The session read loop over a list of received messages: dispatch each
in turn; an uncaught handler exception closes the session (the `finally`
of `run`) and no further messages are processed.  Returns the final state
and, per message, the lines written while handling it. -/
def runSession (s : SessionState) :
    List StepInput → SessionState × List (InMsg × List OutMsg)
  | [] => (s, [])
  | step :: rest =>
    match dispatch step.jm step.up s step.msg with
    | (s', outs, true) => ({ s' with closed := true }, [(step.msg, outs)])
    | (s', outs, false) =>
      let r := runSession s' rest
      (r.1, (step.msg, outs) :: r.2)

/-! ### Share accounting bookkeeping over a trace -/

/-- Whether an outbound line is a response (carries a request id), as
opposed to a notification. -/
def isResponse : OutMsg → Bool
  | OutMsg.result_bool _ _ => true
  | OutMsg.result_work _ _ _ _ => true
  | OutMsg.result_subscribe _ => true
  | OutMsg.error _ _ _ => true
  | _ => false

/-- Whether a method is a share submission. -/
def isSubmitMethod (m : String) : Bool :=
  m == "eth_submitWork" || m == "mining.submit"

/-- Number of responses emitted to submit requests in a trace. -/
def submitResponseCount (tr : List (InMsg × List OutMsg)) : Nat :=
  (tr.map fun p =>
    if isSubmitMethod p.1.method then (p.2.filter isResponse).length else 0).sum

/-- The early-return error replies of the submit handlers, emitted before
any share is forwarded and without touching the share counters. -/
def isEarlySubmitError (m : OutMsg) : Bool :=
  match m with
  | OutMsg.error _ code message =>
    (code == 24 && message == "Not authorized") ||
    (code == 21 && (message == "Not enough parameters" ||
                    message == jobNotFoundMsg)) ||
    (code == -1 && message == "Need [nonce, headerHash, mixDigest]")
  | _ => false

/-- A response that participates in share accounting: any response that is
not one of the early-return error replies. -/
def countedResp (o : OutMsg) : Bool :=
  isResponse o && !isEarlySubmitError o

/-- Number of responses emitted to submit requests after the early checks,
i.e. the replies produced by forwarding a solution. -/
def countedSubmitResponses (tr : List (InMsg × List OutMsg)) : Nat :=
  (tr.map fun p =>
    if isSubmitMethod p.1.method then (p.2.filter countedResp).length
    else 0).sum

/-! ### The cache invariant, and concrete scenario inputs -/

/-- A well-formed job id minted by the manager: the `hex` rendering of a
positive counter value that is at most the current counter. -/
def GoodKey (c : Nat) (k : String) : Prop :=
  1 ≤ int16 k ∧ int16 k ≤ c ∧ k = pyHex (int16 k)

/-- Invariant of every reachable `JobManager` state: the cache is bounded
by 20, both maps have distinct keys, and every cached job id is a
well-formed mint of the counter. -/
def JMInv (s : JobManagerState) : Prop :=
  s.jobs.length ≤ 20 ∧
  (s.jobs.map Prod.fst).Nodup ∧
  (s.by_header.map Prod.fst).Nodup ∧
  ∀ p ∈ s.jobs, GoodKey s.counter p.1

instance (c : Nat) (k : String) : Decidable (GoodKey c k) := by
  unfold GoodKey
  infer_instance

instance (s : JobManagerState) : Decidable (JMInv s) := by
  unfold JMInv
  infer_instance

/-- An upstream `get_work` triple with header `h` (fixed seed and
boundary), for the concrete polling scenarios. -/
def mkTrip (h : String) : Option (List String) := some [h, "s", "1"]

/-- 25 upstream triples with 25 distinct single-letter headers `a`..`y`. -/
def c5_rs : List (Option (List String)) :=
  (List.range 25).map (fun i => mkTrip (String.mk [Char.ofNat (97 + i)]))

/-- The job manager after polling the 25 distinct headers. -/
def c5_state : JobManagerState := pollList c5_rs initJM

/-- 21 upstream triples: header `a`, then 19 distinct headers `b`..`t`,
then header `a` again (legal: only consecutive headers must differ). -/
def c6_rs : List (Option (List String)) :=
  (mkTrip "a" :: (List.range 19).map (fun i => mkTrip (String.mk [Char.ofNat (98 + i)])))
    ++ [mkTrip "a"]

/-- The job manager after the 21-poll sequence with a repeated header. -/
def c6_state : JobManagerState := pollList c6_rs initJM

/-- A `mining.submit` received before any authorization. -/
def c2_step : StepInput :=
  { jm := initJM, up := RpcOutcome.ok true,
    msg := { id := some 1, method := "mining.submit",
             params := [some "w", some "0x1", some "0xff"] } }

/-- A `mining.authorize` with worker and password params. -/
def authorizeStep : StepInput :=
  { jm := initJM, up := RpcOutcome.ok true,
    msg := { id := some 1, method := "mining.authorize",
             params := [some "w", some "x"] } }

/-- A 3-param `mining.submit` naming a job id absent from the cache. -/
def c3_sub : StepInput :=
  { jm := initJM, up := RpcOutcome.ok true,
    msg := { id := some 2, method := "mining.submit",
             params := [some "w", some "0xdead", some "0x1234"] } }

/-- A cached job, and a manager holding it, for the crash scenario. -/
def c4_job : Job :=
  { job_id := "0x1", header_hash := "0xaa", seed_hash := "0xbb", boundary := "0x1" }

/-- A job manager whose cache holds `c4_job` under id `0x1`. -/
def c4_jm : JobManagerState :=
  { jobs := [("0x1", c4_job)], current_job := some c4_job, counter := 1,
    by_header := [("0xaa", c4_job)] }

/-- A 3-param `mining.submit` against the cached job `0x1`: the job is
found, so the header hash is reconstructed, but the mix digest stays None. -/
def c4_sub : StepInput :=
  { jm := c4_jm, up := RpcOutcome.ok true,
    msg := { id := some 2, method := "mining.submit",
             params := [some "w", some "0x1", some "0x9999"] } }

/-- A job whose boundary is non-empty yet not hex. -/
def c8_jobBad : Job :=
  { job_id := "0x1", header_hash := "h", seed_hash := "s", boundary := "zz" }

/-- A job whose boundary is the empty string (falsy in Python). -/
def c8_jobEmpty : Job :=
  { job_id := "0x1", header_hash := "h", seed_hash := "s", boundary := "" }

/-! ### Lemmas: hex rendering round-trips through parsing -/

theorem hexDigitVal_hexDigitChar : ∀ d, d < 16 → hexDigitVal (hexDigitChar d) = d := by
  decide

theorem toHexCharsF_foldl :
    ∀ fuel n a, n ≤ fuel →
      (toHexCharsF fuel n).foldl (fun x c => 16 * x + hexDigitVal c) a
        = a * 16 ^ (toHexCharsF fuel n).length + n := by
  intro fuel
  induction fuel with
  | zero =>
    intro n a h
    have hn : n = 0 := Nat.le_zero.mp h
    subst hn
    simp [toHexCharsF, hexDigitVal_hexDigitChar 0 (by omega)]
    ring
  | succ fuel ih =>
    intro n a h
    by_cases hlt : n < 16
    · simp [toHexCharsF, hlt, hexDigitVal_hexDigitChar n hlt]
      ring
    · have hdiv : n / 16 ≤ fuel := by
        have := Nat.div_lt_self (show 0 < n by omega) (show 1 < 16 by omega)
        omega
      simp only [toHexCharsF, if_neg hlt, List.foldl_append, List.length_append,
        List.length_singleton, List.foldl_cons, List.foldl_nil]
      rw [ih (n / 16) a hdiv]
      rw [hexDigitVal_hexDigitChar (n % 16) (Nat.mod_lt n (by omega))]
      have hmod := Nat.div_add_mod n 16
      have hpow : 16 ^ ((toHexCharsF fuel (n / 16)).length + 1)
          = 16 ^ (toHexCharsF fuel (n / 16)).length * 16 := by
        rw [pow_succ]
      rw [hpow]
      ring_nf
      omega

theorem int16_pyHex (n : Nat) : int16 (pyHex n) = n := by
  have h : int16 (pyHex n)
      = (toHexChars n).foldl (fun x c => 16 * x + hexDigitVal c) 0 := rfl
  rw [h, toHexChars, toHexCharsF_foldl n n 0 (Nat.le_refl n)]
  simp

theorem pyHex_inj : Function.Injective pyHex := by
  intro a b h
  have := congrArg int16 h
  rwa [int16_pyHex, int16_pyHex] at this

theorem pyHex_ne_empty (n : Nat) : pyHex n ≠ "" := by
  intro h
  have : (pyHex n).data = ("" : String).data := congrArg String.data h
  simp [pyHex] at this

/-! ### Lemmas: association-list dictionaries -/

theorem dictGet_eq_none_iff {α : Type} (d : List (String × α)) (k : String) :
    dictGet d k = none ↔ ∀ p ∈ d, p.1 ≠ k := by
  induction d with
  | nil => simp [dictGet]
  | cons p d ih =>
    by_cases h : p.1 = k
    · simp [dictGet, h]
    · simp [dictGet, h, ih]

theorem dictGet_isSome_iff {α : Type} (d : List (String × α)) (k : String) :
    (dictGet d k).isSome = true ↔ k ∈ d.map Prod.fst := by
  induction d with
  | nil => simp [dictGet]
  | cons p d ih =>
    by_cases h : p.1 = k
    · simp [dictGet, h]
    · simp [dictGet, h, ih, Ne.symm h]

theorem dictGet_mem {α : Type} {d : List (String × α)} {k : String} {v : α}
    (h : dictGet d k = some v) : (k, v) ∈ d := by
  induction d with
  | nil => simp [dictGet] at h
  | cons p d ih =>
    by_cases hp : p.1 = k
    · rw [dictGet, if_pos hp] at h
      obtain ⟨p1, p2⟩ := p
      obtain rfl : p1 = k := hp
      obtain rfl : p2 = v := Option.some.inj h
      exact List.mem_cons_self _ _
    · rw [dictGet, if_neg hp] at h
      exact List.mem_cons_of_mem _ (ih h)

theorem dictSet_of_not_mem {α : Type} {d : List (String × α)} {k : String}
    (v : α) (h : ∀ p ∈ d, p.1 ≠ k) : dictSet d k v = d ++ [(k, v)] := by
  induction d with
  | nil => simp [dictSet]
  | cons p d ih =>
    have hp : p.1 ≠ k := h p (List.mem_cons_self p d)
    rw [dictSet, if_neg hp, ih (fun q hq => h q (List.mem_cons_of_mem _ hq))]
    simp

theorem dictGet_dictSet_self {α : Type} (d : List (String × α)) (k : String) (v : α) :
    dictGet (dictSet d k v) k = some v := by
  induction d with
  | nil => simp [dictSet, dictGet]
  | cons p d ih =>
    by_cases h : p.1 = k
    · simp [dictSet, h, dictGet]
    · simp [dictSet, h, dictGet, ih]

theorem mem_keys_dictSet {α : Type} (d : List (String × α)) (k k' : String) (v : α) :
    k' ∈ (dictSet d k v).map Prod.fst ↔ k' ∈ d.map Prod.fst ∨ k' = k := by
  induction d with
  | nil => simp [dictSet]
  | cons p d ih =>
    by_cases h : p.1 = k
    · subst h
      simp [dictSet]
      tauto
    · simp [dictSet, h, ih]
      tauto

theorem nodup_keys_dictSet {α : Type} (d : List (String × α)) (k : String) (v : α)
    (h : (d.map Prod.fst).Nodup) : ((dictSet d k v).map Prod.fst).Nodup := by
  induction d with
  | nil => simp [dictSet]
  | cons p d ih =>
    simp only [List.map_cons, List.nodup_cons] at h
    by_cases hp : p.1 = k
    · rw [dictSet, if_pos hp, List.map_cons, List.nodup_cons]
      exact ⟨hp ▸ h.1, h.2⟩
    · simp only [dictSet, if_neg hp, List.map_cons, List.nodup_cons]
      refine ⟨fun hc => ?_, ih h.2⟩
      rcases (mem_keys_dictSet d k p.1 v).mp hc with hm | he
      · exact h.1 hm
      · exact hp he

theorem dictPop_sublist {α : Type} (d : List (String × α)) (k : String) :
    (dictPop d k).Sublist d := by
  induction d with
  | nil => simp [dictPop]
  | cons p d ih =>
    by_cases h : p.1 = k
    · rw [dictPop, if_pos h]
      exact ih.cons p
    · rw [dictPop, if_neg h]
      exact ih.cons₂ p

theorem dictGet_dictPop_ne {α : Type} (d : List (String × α)) {k k' : String}
    (h : k' ≠ k) : dictGet (dictPop d k) k' = dictGet d k' := by
  induction d with
  | nil => simp [dictPop]
  | cons p d ih =>
    by_cases hp : p.1 = k
    · have : p.1 ≠ k' := by rw [hp]; exact fun he => h he.symm
      rw [dictPop, if_pos hp, dictGet, if_neg this, ih]
    · rw [dictPop, if_neg hp, dictGet, dictGet]
      by_cases hq : p.1 = k'
      · rw [if_pos hq, if_pos hq]
      · rw [if_neg hq, if_neg hq, ih]

theorem dictPop_of_not_mem {α : Type} {d : List (String × α)} {k : String}
    (h : ∀ p ∈ d, p.1 ≠ k) : dictPop d k = d := by
  induction d with
  | nil => simp [dictPop]
  | cons p d ih =>
    rw [dictPop, if_neg (h p (List.mem_cons_self p d)),
      ih (fun q hq => h q (List.mem_cons_of_mem _ hq))]

theorem length_dictPop {α : Type} {d : List (String × α)} {k : String}
    (hnd : (d.map Prod.fst).Nodup) (hm : k ∈ d.map Prod.fst) :
    (dictPop d k).length + 1 = d.length := by
  induction d with
  | nil => simp at hm
  | cons p d ih =>
    simp only [List.map_cons, List.nodup_cons] at hnd
    rcases List.mem_cons.mp hm with he | hm2
    · rw [dictPop, if_pos he.symm, dictPop_of_not_mem, List.length_cons]
      intro q hq hqk
      apply hnd.1
      rw [← he, ← hqk]
      exact List.mem_map_of_mem Prod.fst hq
    · have hp : p.1 ≠ k := fun he2 => hnd.1 (he2 ▸ hm2)
      rw [dictPop, if_neg hp, List.length_cons, List.length_cons, ← ih hnd.2 hm2]

/-! ### Lemmas: the pruning loop -/

theorem pruneIds_fst_sublist :
    ∀ (ids : List String) (jobs byh : List (String × Job)),
      (pruneIds ids jobs byh).1.Sublist jobs := by
  intro ids
  induction ids with
  | nil => intro jobs byh; exact List.Sublist.refl _
  | cons oid rest ih =>
    intro jobs byh
    rw [pruneIds]
    cases h : dictGet jobs oid with
    | some j => exact ((ih _ _).trans (dictPop_sublist _ _))
    | none => exact ih _ _

theorem pruneIds_snd_sublist :
    ∀ (ids : List String) (jobs byh : List (String × Job)),
      (pruneIds ids jobs byh).2.Sublist byh := by
  intro ids
  induction ids with
  | nil => intro jobs byh; exact List.Sublist.refl _
  | cons oid rest ih =>
    intro jobs byh
    rw [pruneIds]
    cases h : dictGet jobs oid with
    | some j => exact ((ih _ _).trans (dictPop_sublist _ _))
    | none => exact ih _ _

theorem pruneIds_fst_get_of_not_mem :
    ∀ (ids : List String) (jobs byh : List (String × Job)) (k : String),
      k ∉ ids → dictGet (pruneIds ids jobs byh).1 k = dictGet jobs k := by
  intro ids
  induction ids with
  | nil => intro jobs byh k _; rfl
  | cons oid rest ih =>
    intro jobs byh k hk
    have hne : k ≠ oid := fun he => hk (he ▸ List.mem_cons_self oid rest)
    have hrest : k ∉ rest := fun hm => hk (List.mem_cons_of_mem _ hm)
    rw [pruneIds]
    cases h : dictGet jobs oid with
    | some j => rw [ih _ _ _ hrest, dictGet_dictPop_ne _ hne]
    | none => exact ih _ _ _ hrest

theorem pruneIds_fst_length :
    ∀ (ids : List String) (jobs byh : List (String × Job)),
      ids.Nodup → (∀ i ∈ ids, i ∈ jobs.map Prod.fst) →
      (jobs.map Prod.fst).Nodup →
      (pruneIds ids jobs byh).1.length = jobs.length - ids.length := by
  intro ids
  induction ids with
  | nil => intro jobs byh _ _ _; simp [pruneIds]
  | cons oid rest ih =>
    intro jobs byh hnd hmem hkeys
    have hoid : oid ∈ jobs.map Prod.fst := hmem oid (List.mem_cons_self _ _)
    have hsome : (dictGet jobs oid).isSome = true := (dictGet_isSome_iff _ _).mpr hoid
    rw [pruneIds]
    cases h : dictGet jobs oid with
    | none => rw [h] at hsome; simp at hsome
    | some j =>
      have hlen := length_dictPop hkeys hoid
      have hkeys2 : ((dictPop jobs oid).map Prod.fst).Nodup :=
        ((dictPop_sublist jobs oid).map Prod.fst).nodup hkeys
      have hmem2 : ∀ i ∈ rest, i ∈ (dictPop jobs oid).map Prod.fst := by
        intro i hi
        have hne : i ≠ oid := fun he =>
          (List.nodup_cons.mp hnd).1 (he ▸ hi)
        have : (dictGet (dictPop jobs oid) i).isSome = true := by
          rw [dictGet_dictPop_ne _ hne]
          exact (dictGet_isSome_iff _ _).mpr (hmem i (List.mem_cons_of_mem _ hi))
        exact (dictGet_isSome_iff _ _).mp this
      show (pruneIds rest (dictPop jobs oid) (dictPop byh (pyLower j.header_hash))).1.length
          = jobs.length - (oid :: rest).length
      rw [ih _ _ (List.nodup_cons.mp hnd).2 hmem2 hkeys2]
      simp only [List.length_cons]
      omega

theorem pruneIds_snd_get :
    ∀ (ids : List String) (jobs byh : List (String × Job)) (hk : String),
      (∀ p ∈ jobs, p.1 ∈ ids → pyLower p.2.header_hash ≠ hk) →
      dictGet (pruneIds ids jobs byh).2 hk = dictGet byh hk := by
  intro ids
  induction ids with
  | nil => intro jobs byh hk _; rfl
  | cons oid rest ih =>
    intro jobs byh hk hsafe
    rw [pruneIds]
    cases h : dictGet jobs oid with
    | none =>
      exact ih _ _ _ (fun p hp hr => hsafe p hp (List.mem_cons_of_mem _ hr))
    | some j =>
      have hj : (oid, j) ∈ jobs := dictGet_mem h
      have hjh : pyLower j.header_hash ≠ hk :=
        hsafe (oid, j) hj (List.mem_cons_self _ _)
      have hsafe2 : ∀ p ∈ dictPop jobs oid, p.1 ∈ rest → pyLower p.2.header_hash ≠ hk := by
        intro p hp hr
        exact hsafe p ((dictPop_sublist jobs oid).mem hp) (List.mem_cons_of_mem _ hr)
      rw [ih _ _ _ hsafe2, dictGet_dictPop_ne _ (Ne.symm hjh)]

/-! ### Lemmas: the pruning step -/

theorem oldIds_nodup {jobs : List (String × Job)}
    (h : (jobs.map Prod.fst).Nodup) : (oldIds jobs).Nodup := by
  have hperm := List.perm_insertionSort keyLe (jobs.map Prod.fst)
  exact ((List.take_sublist _ _).nodup (hperm.nodup_iff.mpr h))

theorem oldIds_mem {jobs : List (String × Job)} {i : String}
    (h : i ∈ oldIds jobs) : i ∈ jobs.map Prod.fst := by
  have hperm := List.perm_insertionSort keyLe (jobs.map Prod.fst)
  exact hperm.mem_iff.mp ((List.take_sublist _ _).mem h)

theorem oldIds_length {jobs : List (String × Job)} (h : jobs.length > 20) :
    (oldIds jobs).length = jobs.length - 20 := by
  have hlenS : (List.insertionSort keyLe (jobs.map Prod.fst)).length = jobs.length := by
    rw [List.length_insertionSort, List.length_map]
  rw [oldIds, List.length_take, hlenS]
  omega

theorem pruneCache_fst_sublist (jobs byh : List (String × Job)) :
    (pruneCache jobs byh).1.Sublist jobs := by
  rw [pruneCache]
  by_cases h : jobs.length > 20
  · rw [if_pos h]; exact pruneIds_fst_sublist _ _ _
  · rw [if_neg h]

theorem pruneCache_snd_sublist (jobs byh : List (String × Job)) :
    (pruneCache jobs byh).2.Sublist byh := by
  rw [pruneCache]
  by_cases h : jobs.length > 20
  · rw [if_pos h]; exact pruneIds_snd_sublist _ _ _
  · rw [if_neg h]

theorem pruneCache_fst_get {jobs byh : List (String × Job)} {k : String}
    (h : k ∉ oldIds jobs) : dictGet (pruneCache jobs byh).1 k = dictGet jobs k := by
  rw [pruneCache]
  by_cases hgt : jobs.length > 20
  · rw [if_pos hgt]; exact pruneIds_fst_get_of_not_mem _ _ _ _ h
  · rw [if_neg hgt]

theorem pruneCache_fst_length {jobs byh : List (String × Job)}
    (hnd : (jobs.map Prod.fst).Nodup) (hle : jobs.length ≤ 21) :
    (pruneCache jobs byh).1.length ≤ 20 := by
  rw [pruneCache]
  by_cases hgt : jobs.length > 20
  · rw [if_pos hgt]
    rw [pruneIds_fst_length _ _ _ (oldIds_nodup hnd) (fun i hi => oldIds_mem hi) hnd]
    rw [oldIds_length hgt]
    omega
  · rw [if_neg hgt]
    show jobs.length ≤ 20
    omega

theorem pruneCache_snd_get {jobs byh : List (String × Job)} {hk : String}
    (hsafe : ∀ p ∈ jobs, p.1 ∈ oldIds jobs → pyLower p.2.header_hash ≠ hk) :
    dictGet (pruneCache jobs byh).2 hk = dictGet byh hk := by
  rw [pruneCache]
  by_cases hgt : jobs.length > 20
  · rw [if_pos hgt]; exact pruneIds_snd_get _ _ _ _ hsafe
  · rw [if_neg hgt]

theorem maxKey_not_mem_oldIds {jobs : List (String × Job)} {c : Nat} {k : String}
    (hnd : (jobs.map Prod.fst).Nodup) (hk : int16 k = c + 1)
    (hb : ∀ x ∈ jobs.map Prod.fst, x = k ∨ int16 x ≤ c) :
    k ∉ oldIds jobs := by
  intro hmem
  by_cases hgt : jobs.length > 20
  case neg =>
    have : (oldIds jobs).length = 0 := by
      rw [oldIds, List.length_take]
      have : (List.insertionSort keyLe (jobs.map Prod.fst)).length = jobs.length := by
        rw [List.length_insertionSort, List.length_map]
      omega
    rw [List.length_eq_zero.mp this] at hmem
    simp at hmem
  case pos =>
    have hperm := List.perm_insertionSort keyLe (jobs.map Prod.fst)
    have hsorted := List.sorted_insertionSort keyLe (jobs.map Prod.fst)
    have hSnd : (List.insertionSort keyLe (jobs.map Prod.fst)).Nodup :=
      hperm.nodup_iff.mpr hnd
    have hlenS : (List.insertionSort keyLe (jobs.map Prod.fst)).length = jobs.length := by
      rw [List.length_insertionSort, List.length_map]
    set S := List.insertionSort keyLe (jobs.map Prod.fst) with hS
    set n := jobs.length - 20 with hn
    have hsplit : S.take n ++ S.drop n = S := List.take_append_drop n S
    have hdlen : (S.drop n).length = 20 := by
      rw [List.length_drop, hlenS]
      omega
    obtain ⟨x, hx⟩ : ∃ x, x ∈ S.drop n := by
      cases hd : S.drop n with
      | nil => rw [hd] at hdlen; simp at hdlen
      | cons y t => exact ⟨y, hd ▸ List.mem_cons_self y t⟩
    have hpair : List.Pairwise keyLe (S.take n ++ S.drop n) := by
      rw [hsplit]; exact hsorted
    have hnd2 : (S.take n ++ S.drop n).Nodup := by
      rw [hsplit]; exact hSnd
    have hrel : keyLe k x := (List.pairwise_append.mp hpair).2.2 k hmem x hx
    have hdisj := (List.nodup_append.mp hnd2).2.2
    have hxkeys : x ∈ jobs.map Prod.fst := by
      apply hperm.mem_iff.mp
      rw [← hsplit]
      exact List.mem_append_right _ hx
    rcases hb x hxkeys with he | hle
    · subst he
      exact hdisj hmem hx
    · rw [keyLe, hk] at hrel
      omega

/-! ### The new-work branch: full characterization -/

theorem poll_work_new_full (s : JobManagerState) (h sd bd : String) (hInv : JMInv s) :
    (poll_work_new s h sd bd).1 = some ⟨pyHex (s.counter + 1), h, sd, bd⟩ ∧
    (poll_work_new s h sd bd).2.current_job = some ⟨pyHex (s.counter + 1), h, sd, bd⟩ ∧
    (poll_work_new s h sd bd).2.counter = s.counter + 1 ∧
    dictGet (poll_work_new s h sd bd).2.jobs (pyHex (s.counter + 1))
      = some ⟨pyHex (s.counter + 1), h, sd, bd⟩ ∧
    JMInv (poll_work_new s h sd bd).2 ∧
    (∀ v, 1 ≤ v → v ≤ s.counter → dictGet s.jobs (pyHex v) = none →
      dictGet (poll_work_new s h sd bd).2.jobs (pyHex v) = none) ∧
    ((∀ p ∈ s.jobs, pyLower p.2.header_hash ≠ pyLower h) →
      dictGet (poll_work_new s h sd bd).2.by_header (pyLower h)
        = some ⟨pyHex (s.counter + 1), h, sd, bd⟩) := by
  obtain ⟨hlen20, hndk, hndh, hgood⟩ := hInv
  set c := s.counter with hc
  set key := pyHex (c + 1) with hkeydef
  set nj : Job := ⟨key, h, sd, bd⟩ with hnj
  have hkeyval : int16 key = c + 1 := by rw [hkeydef, int16_pyHex]
  have hnotmem : ∀ p ∈ s.jobs, p.1 ≠ key := by
    intro p hp he
    obtain ⟨h1, h2, h3⟩ := hgood p hp
    rw [he, hkeyval] at h2
    omega
  have hjobs1 : dictSet s.jobs key nj = s.jobs ++ [(key, nj)] :=
    dictSet_of_not_mem nj hnotmem
  have hkeys1 : (dictSet s.jobs key nj).map Prod.fst
      = s.jobs.map Prod.fst ++ [key] := by
    rw [hjobs1, List.map_append]
    rfl
  have hkeymem : key ∉ s.jobs.map Prod.fst := by
    intro hm
    obtain ⟨p, hp, hpe⟩ := List.mem_map.mp hm
    exact hnotmem p hp hpe
  have hnd1 : ((dictSet s.jobs key nj).map Prod.fst).Nodup := by
    rw [hkeys1, List.nodup_append]
    refine ⟨hndk, List.nodup_singleton key, ?_⟩
    intro a ha hb
    rw [List.mem_singleton] at hb
    exact hkeymem (hb ▸ ha)
  have hlen1 : (dictSet s.jobs key nj).length ≤ 21 := by
    rw [hjobs1, List.length_append, List.length_singleton]
    omega
  have hbound : ∀ x ∈ (dictSet s.jobs key nj).map Prod.fst,
      x = key ∨ int16 x ≤ c := by
    intro x hx
    rw [hkeys1, List.mem_append, List.mem_singleton] at hx
    rcases hx with hx | hx
    · right
      obtain ⟨p, hp, hpe⟩ := List.mem_map.mp hx
      obtain ⟨g1, g2, g3⟩ := hgood p hp
      rw [← hpe]
      exact g2
    · left
      exact hx
  have hknotold : key ∉ oldIds (dictSet s.jobs key nj) :=
    maxKey_not_mem_oldIds hnd1 hkeyval hbound
  have hmem1 : ∀ p ∈ (pruneCache (dictSet s.jobs key nj)
      (dictSet s.by_header (pyLower h) nj)).1, p ∈ s.jobs ++ [(key, nj)] := by
    intro p hp
    rw [← hjobs1]
    exact (pruneCache_fst_sublist _ _).mem hp
  refine ⟨rfl, rfl, rfl, ?_, ?_, ?_, ?_⟩
  · show dictGet (pruneCache (dictSet s.jobs key nj)
      (dictSet s.by_header (pyLower h) nj)).1 key = some nj
    rw [pruneCache_fst_get hknotold, dictGet_dictSet_self]
  · refine ⟨?_, ?_, ?_, ?_⟩
    · exact pruneCache_fst_length hnd1 hlen1
    · exact ((pruneCache_fst_sublist _ _).map Prod.fst).nodup hnd1
    · exact ((pruneCache_snd_sublist _ _).map Prod.fst).nodup
        (nodup_keys_dictSet _ _ _ hndh)
    · intro p hp
      show GoodKey (c + 1) p.1
      rcases List.mem_append.mp (hmem1 p hp) with hm | hm
      · obtain ⟨g1, g2, g3⟩ := hgood p hm
        exact ⟨g1, by omega, g3⟩
      · rw [List.mem_singleton] at hm
        subst hm
        exact ⟨by rw [hkeyval]; omega, by rw [hkeyval], by rw [hkeyval]⟩
  · intro v h1 h2 h3
    show dictGet (pruneCache (dictSet s.jobs key nj)
      (dictSet s.by_header (pyLower h) nj)).1 (pyHex v) = none
    rw [dictGet_eq_none_iff]
    intro p hp
    rcases List.mem_append.mp (hmem1 p hp) with hm | hm
    · exact (dictGet_eq_none_iff _ _).mp h3 p hm
    · rw [List.mem_singleton] at hm
      subst hm
      show key ≠ pyHex v
      intro he
      have := congrArg int16 he
      rw [hkeyval, int16_pyHex] at this
      omega
  · intro hfresh
    show dictGet (pruneCache (dictSet s.jobs key nj)
      (dictSet s.by_header (pyLower h) nj)).2 (pyLower h) = some nj
    have hsafe : ∀ p ∈ dictSet s.jobs key nj,
        p.1 ∈ oldIds (dictSet s.jobs key nj) →
        pyLower p.2.header_hash ≠ pyLower h := by
      intro p hp hpold
      rw [hjobs1, List.mem_append, List.mem_singleton] at hp
      rcases hp with hp | hp
      · exact hfresh p hp
      · subst hp
        exact absurd hpold hknotold
    rw [pruneCache_snd_get hsafe, dictGet_dictSet_self]

/-! ### Lemmas: `poll_work` case analysis and invariant preservation -/

theorem poll_work_none (s : JobManagerState) : poll_work s none = (none, s) := rfl

theorem poll_work_short (s : JobManagerState) (l : List String)
    (hl : l.length < 3) : poll_work s (some l) = (none, s) := by
  rcases l with _ | ⟨a, _ | ⟨b, _ | ⟨c, t⟩⟩⟩
  · rfl
  · rfl
  · rfl
  · simp only [List.length_cons] at hl
    omega

theorem poll_work_same (s : JobManagerState) {cj : Job}
    (hcur : s.current_job = some cj) (h sd bd : String) (t : List String)
    (hh : cj.header_hash = h) :
    poll_work s (some (h :: sd :: bd :: t)) = (none, s) := by
  simp only [poll_work]
  rw [hcur]
  simp [hh]

theorem poll_work_eq_new (s : JobManagerState) (h sd bd : String) (t : List String)
    (hnew : ∀ cj, s.current_job = some cj → cj.header_hash ≠ h) :
    poll_work s (some (h :: sd :: bd :: t)) = poll_work_new s h sd bd := by
  simp only [poll_work]
  cases hcur : s.current_job with
  | none => rfl
  | some cj => simp [if_neg (hnew cj hcur)]

theorem JMInv_init : JMInv initJM := by
  refine ⟨by simp [initJM], by simp [initJM], by simp [initJM], ?_⟩
  intro p hp
  simp [initJM] at hp

theorem poll_work_inv (s : JobManagerState) (r : Option (List String))
    (hInv : JMInv s) : JMInv (poll_work s r).2 := by
  rcases r with - | l
  · exact hInv
  rcases l with _ | ⟨h, _ | ⟨sd, _ | ⟨bd, t⟩⟩⟩
  · exact hInv
  · exact hInv
  · exact hInv
  cases hcur : s.current_job with
  | none =>
    rw [poll_work_eq_new s h sd bd t (by intro cj hc; rw [hcur] at hc; cases hc)]
    exact (poll_work_new_full s h sd bd hInv).2.2.2.2.1
  | some cj =>
    by_cases hh : cj.header_hash = h
    · rw [poll_work_same s hcur h sd bd t hh]
      exact hInv
    · rw [poll_work_eq_new s h sd bd t
        (by intro cj' hc'; rw [hcur] at hc'; injection hc' with he; rw [← he]; exact hh)]
      exact (poll_work_new_full s h sd bd hInv).2.2.2.2.1

theorem poll_work_absent (s : JobManagerState) (r : Option (List String))
    (hInv : JMInv s) (v : Nat) (h1 : 1 ≤ v) (h2 : v ≤ s.counter)
    (h3 : dictGet s.jobs (pyHex v) = none) :
    JMInv (poll_work s r).2 ∧ v ≤ (poll_work s r).2.counter ∧
      dictGet (poll_work s r).2.jobs (pyHex v) = none := by
  have hnewcase : ∀ h sd bd t,
      poll_work s (some (h :: sd :: bd :: t)) = poll_work_new s h sd bd →
      JMInv (poll_work s (some (h :: sd :: bd :: t))).2 ∧
        v ≤ (poll_work s (some (h :: sd :: bd :: t))).2.counter ∧
        dictGet (poll_work s (some (h :: sd :: bd :: t))).2.jobs (pyHex v) = none := by
    intro h sd bd t he
    rw [he]
    obtain ⟨-, -, hcnt, -, hinv2, habs, -⟩ := poll_work_new_full s h sd bd hInv
    exact ⟨hinv2, by rw [hcnt]; omega, habs v h1 h2 h3⟩
  rcases r with - | l
  · exact ⟨hInv, h2, h3⟩
  rcases l with _ | ⟨h, _ | ⟨sd, _ | ⟨bd, t⟩⟩⟩
  · exact ⟨hInv, h2, h3⟩
  · exact ⟨hInv, h2, h3⟩
  · exact ⟨hInv, h2, h3⟩
  cases hcur : s.current_job with
  | none =>
    exact hnewcase h sd bd t
      (poll_work_eq_new s h sd bd t (by intro cj hc; rw [hcur] at hc; cases hc))
  | some cj =>
    by_cases hh : cj.header_hash = h
    · rw [poll_work_same s hcur h sd bd t hh]
      exact ⟨hInv, h2, h3⟩
    · exact hnewcase h sd bd t (poll_work_eq_new s h sd bd t
        (by intro cj' hc'; rw [hcur] at hc'; injection hc' with he; rw [← he]; exact hh))

theorem pollList_absent :
    ∀ (rs : List (Option (List String))) (s : JobManagerState),
      JMInv s → ∀ v, 1 ≤ v → v ≤ s.counter →
      dictGet s.jobs (pyHex v) = none →
      dictGet (pollList rs s).jobs (pyHex v) = none := by
  intro rs
  induction rs with
  | nil => intro s _ v _ _ h3; exact h3
  | cons r rest ih =>
    intro s hInv v h1 h2 h3
    obtain ⟨hinv2, h2b, h3b⟩ := poll_work_absent s r hInv v h1 h2 h3
    exact ih (poll_work s r).2 hinv2 v h1 h2b h3b

/-! ### Lemmas: `find_job` and `pollList` -/

theorem find_job_some {s : JobManagerState} {jid : String} {j : Job}
    (hne : jid ≠ "") (hget : dictGet s.jobs jid = some j) :
    find_job s (some jid) none = some j := by
  simp only [find_job]
  rw [if_neg hne, hget]

theorem find_job_none_of_get_none {s : JobManagerState} {jid : String}
    (hget : dictGet s.jobs jid = none) : find_job s (some jid) none = none := by
  simp only [find_job]
  by_cases hne : jid = ""
  · rw [if_pos hne]
    rfl
  · rw [if_neg hne, hget]
    rfl

theorem find_job_header (s : JobManagerState) {hh : String} (hne : hh ≠ "") :
    find_job s none (some hh) = dictGet s.by_header (pyLower hh) := by
  simp only [find_job, find_job_by_header]
  rw [if_neg hne]

theorem pollList_inv : ∀ (rs : List (Option (List String))) (s : JobManagerState),
    JMInv s → JMInv (pollList rs s) := by
  intro rs
  induction rs with
  | nil => intro s hInv; exact hInv
  | cons r rest ih => intro s hInv; exact ih _ (poll_work_inv s r hInv)

/-! ### The claims -/

/-- C10: whenever `poll_work` reports "no change" (null `get_work` result,
a result shorter than 3, or an unchanged header hash), the job manager
state is entirely unchanged: same `jobs` map, same `_by_header` map, same
`current_job`, same counter. -/
theorem C10_no_change_frame (s : JobManagerState) (r : Option (List String))
    (h : (poll_work s r).1 = none) : (poll_work s r).2 = s := by
  rcases r with - | l
  · rfl
  rcases l with _ | ⟨hh, _ | ⟨sd, _ | ⟨bd, t⟩⟩⟩
  · rfl
  · rfl
  · rfl
  cases hcur : s.current_job with
  | none =>
    rw [poll_work_eq_new s hh sd bd t (by intro cj hc; rw [hcur] at hc; cases hc)] at h ⊢
    simp [poll_work_new] at h
  | some cj =>
    by_cases hhh : cj.header_hash = hh
    · rw [poll_work_same s hcur hh sd bd t hhh]
    · rw [poll_work_eq_new s hh sd bd t
        (by intro cj' hc'; rw [hcur] at hc'; injection hc' with he; rw [← he]; exact hhh)] at h ⊢
      simp [poll_work_new] at h

/-- C10 witness: a null upstream result at the fresh manager leaves the
state untouched. -/
theorem C10_witness : (poll_work initJM none).2 = initJM :=
  C10_no_change_frame initJM none rfl

/-- C1: `poll_work` returns null exactly on a null or short `get_work`
result or an unchanged header; otherwise it increments the counter, mints
the job id `hex(counter)`, builds the job from the upstream triple, stores
it in both maps (the header key surviving pruning whenever no cached job
shares the lowercased header), sets `current_job`, prunes to at most 20
entries, and returns the job.  Three polls of an identical triple yield
one job and then null twice. -/
theorem C1_poll_work_semantics :
    (∀ s : JobManagerState, poll_work s none = (none, s)) ∧
    (∀ (s : JobManagerState) (l : List String), l.length < 3 →
      poll_work s (some l) = (none, s)) ∧
    (∀ (s : JobManagerState) (cj : Job) (h sd bd : String) (t : List String),
      s.current_job = some cj → cj.header_hash = h →
      poll_work s (some (h :: sd :: bd :: t)) = (none, s)) ∧
    (∀ (s : JobManagerState) (h sd bd : String) (t : List String), JMInv s →
      (∀ cj, s.current_job = some cj → cj.header_hash ≠ h) →
      ∃ j : Job,
        (poll_work s (some (h :: sd :: bd :: t))).1 = some j ∧
        j.job_id = pyHex (s.counter + 1) ∧
        j.header_hash = h ∧ j.seed_hash = sd ∧ j.boundary = bd ∧
        (poll_work s (some (h :: sd :: bd :: t))).2.counter = s.counter + 1 ∧
        (poll_work s (some (h :: sd :: bd :: t))).2.current_job = some j ∧
        find_job (poll_work s (some (h :: sd :: bd :: t))).2 (some j.job_id) none
          = some j ∧
        (poll_work s (some (h :: sd :: bd :: t))).2.jobs.length ≤ 20 ∧
        ((∀ p ∈ s.jobs, pyLower p.2.header_hash ≠ pyLower h) →
          dictGet (poll_work s (some (h :: sd :: bd :: t))).2.by_header (pyLower h)
            = some j)) ∧
    (∀ (s : JobManagerState) (h sd bd : String) (t : List String), JMInv s →
      (∀ cj, s.current_job = some cj → cj.header_hash ≠ h) →
      poll_work (poll_work s (some (h :: sd :: bd :: t))).2 (some (h :: sd :: bd :: t))
        = (none, (poll_work s (some (h :: sd :: bd :: t))).2) ∧
      poll_work (poll_work (poll_work s (some (h :: sd :: bd :: t))).2
          (some (h :: sd :: bd :: t))).2 (some (h :: sd :: bd :: t))
        = (none, (poll_work s (some (h :: sd :: bd :: t))).2)) := by
  refine ⟨fun s => rfl, poll_work_short, ?_, ?_, ?_⟩
  · intro s cj h sd bd t hcur hh
    exact poll_work_same s hcur h sd bd t hh
  · intro s h sd bd t hInv hnew
    rw [poll_work_eq_new s h sd bd t hnew]
    obtain ⟨hres, hcur2, hcnt, hget, hinv2, -, hbyh⟩ := poll_work_new_full s h sd bd hInv
    exact ⟨⟨pyHex (s.counter + 1), h, sd, bd⟩, hres, rfl, rfl, rfl, rfl, hcnt, hcur2,
      find_job_some (pyHex_ne_empty _) hget, hinv2.1, hbyh⟩
  · intro s h sd bd t hInv hnew
    rw [poll_work_eq_new s h sd bd t hnew]
    obtain ⟨-, hcur2, -, -, -, -, -⟩ := poll_work_new_full s h sd bd hInv
    have h2 : poll_work (poll_work_new s h sd bd).2 (some (h :: sd :: bd :: t))
        = (none, (poll_work_new s h sd bd).2) :=
      poll_work_same _ hcur2 h sd bd t rfl
    refine ⟨h2, ?_⟩
    rw [h2]
    exact h2

/-- C1 witness: from the fresh manager, three identical polls produce null
on the second and third call. -/
theorem C1_witness :
    poll_work (poll_work initJM (some ["a", "s", "1"])).2 (some ["a", "s", "1"])
      = (none, (poll_work initJM (some ["a", "s", "1"])).2) ∧
    poll_work (poll_work (poll_work initJM (some ["a", "s", "1"])).2
        (some ["a", "s", "1"])).2 (some ["a", "s", "1"])
      = (none, (poll_work initJM (some ["a", "s", "1"])).2) :=
  C1_poll_work_semantics.2.2.2.2 initJM "a" "s" "1" [] JMInv_init
    (fun cj hc => by cases hc)

set_option maxRecDepth 8000 in
/-- C5: the jobs map never exceeds 20 entries over any poll history from
the fresh manager; after the 25-distinct-header scenario exactly the jobs
with the 20 numerically largest ids (`0x6`..`0x19`) remain, `find_job` on
each of the five evicted ids (`0x1`..`0x5`) returns null, and it still
returns null after any further polling whatsoever. -/
theorem C5_cache_eviction :
    (∀ rs : List (Option (List String)), (pollList rs initJM).jobs.length ≤ 20) ∧
    c5_state.jobs.map Prod.fst = (List.range 20).map (fun i => pyHex (i + 6)) ∧
    (∀ i, i < 6 → 1 ≤ i → find_job c5_state (some (pyHex i)) none = none) ∧
    (∀ (future : List (Option (List String))) (i : Nat), i < 6 → 1 ≤ i →
      find_job (pollList future c5_state) (some (pyHex i)) none = none) := by
  refine ⟨?_, by decide, by decide, ?_⟩
  · intro rs
    exact (pollList_inv rs initJM JMInv_init).1
  · intro future i hi6 hi1
    apply find_job_none_of_get_none
    apply pollList_absent future c5_state (by decide) i hi1
    · show i ≤ c5_state.counter
      have : c5_state.counter = 25 := by decide
      omega
    · have : ∀ i, i < 6 → 1 ≤ i → dictGet c5_state.jobs (pyHex i) = none := by decide
      exact this i hi6 hi1

/-- C5 witness: instantiating the bound at a one-poll history and the
persistence clause at id `0x1` after one further null poll. -/
theorem C5_witness :
    (pollList [some ["a", "s", "1"]] initJM).jobs.length ≤ 20 ∧
    find_job (pollList [none] c5_state) (some (pyHex 1)) none = none :=
  ⟨C5_cache_eviction.1 [some ["a", "s", "1"]],
   C5_cache_eviction.2.2.2 [none] 1 (by decide) (by decide)⟩

set_option maxRecDepth 8000 in
/-- C6 counterexample: in the 21-poll trace whose 21st header repeats the
1st, pruning evicts job `0x1` and thereby pops the `_by_header` entry for
the just-created current job `0x15` with the same header `a`, so right
after this `poll_work` call the header lookup with the header of the
current job returns null instead of that job: the maps are out of step. -/
theorem C6_counterexample :
    c6_state.current_job
      = some { job_id := pyHex 21, header_hash := "a", seed_hash := "s", boundary := "1" } ∧
    find_job c6_state none (some "a") = none := by
  constructor
  · decide
  · decide

/-- C6 (amended): a `poll_work` call that creates a job evicts entries
from both maps, popping the lowercase header key of each evicted job
unconditionally; provided no previously cached job shares the lowercase
header of the new job (and the header is non-empty), the header map still
resolves the current job after the call, by both lookups. -/
theorem C6_amended_map_consistency (s : JobManagerState) (h sd bd : String)
    (t : List String) (hInv : JMInv s)
    (hnew : ∀ cj, s.current_job = some cj → cj.header_hash ≠ h)
    (hfresh : ∀ p ∈ s.jobs, pyLower p.2.header_hash ≠ pyLower h)
    (hne : h ≠ "") :
    ∃ j : Job,
      (poll_work s (some (h :: sd :: bd :: t))).1 = some j ∧
      (poll_work s (some (h :: sd :: bd :: t))).2.current_job = some j ∧
      find_job (poll_work s (some (h :: sd :: bd :: t))).2 none (some h) = some j ∧
      find_job (poll_work s (some (h :: sd :: bd :: t))).2 (some j.job_id) none
        = some j := by
  rw [poll_work_eq_new s h sd bd t hnew]
  obtain ⟨hres, hcur2, -, hget, -, -, hbyh⟩ := poll_work_new_full s h sd bd hInv
  refine ⟨⟨pyHex (s.counter + 1), h, sd, bd⟩, hres, hcur2, ?_, ?_⟩
  · rw [find_job_header _ hne]
    exact hbyh hfresh
  · exact find_job_some (pyHex_ne_empty _) hget

/-- C6 witness: the fresh-header case at a concrete single poll. -/
theorem C6_witness :
    ∃ j : Job,
      (poll_work initJM (some ["a", "s", "1"])).1 = some j ∧
      (poll_work initJM (some ["a", "s", "1"])).2.current_job = some j ∧
      find_job (poll_work initJM (some ["a", "s", "1"])).2 none (some "a") = some j ∧
      find_job (poll_work initJM (some ["a", "s", "1"])).2 (some j.job_id) none
        = some j :=
  C6_amended_map_consistency initJM "a" "s" "1" [] JMInv_init
    (fun cj hc => by cases hc) (fun p hp => by cases hp) (by decide)

/-! ### Lemmas: string prefixes and `submit_solution` results -/

theorem append_ne_of_head {s t : String} {c d : Char} (hs : s.data.head? = some c)
    (ht : t.data.head? = some d) (hcd : c ≠ d) (r : String) : s ++ r ≠ t := by
  intro he
  have h2 : (s ++ r).data.head? = t.data.head? := by rw [he]
  have hdata : (s ++ r).data = s.data ++ r.data := rfl
  rw [hdata] at h2
  cases hl : s.data with
  | nil => rw [hl] at hs; simp at hs
  | cons x xs =>
    rw [hl] at hs h2
    simp only [List.head?_cons, Option.some.injEq] at hs
    simp only [List.cons_append, List.head?_cons, ht, Option.some.injEq] at h2
    exact hcd (hs ▸ h2)

theorem rejected_ne_need (r : String) :
    ("Rejected: " ++ r) ≠ "Need [nonce, headerHash, mixDigest]" :=
  @append_ne_of_head "Rejected: " "Need [nonce, headerHash, mixDigest]" 'R' 'N'
    rfl rfl (by decide) r

theorem error_ne_jnf (e : String) : ("error: " ++ e) ≠ "job-not-found" :=
  @append_ne_of_head "error: " "job-not-found" 'e' 'j' rfl rfl (by decide) e

theorem submit_solution_ok {up : RpcOutcome} {n h m : Option String} {r : String}
    (hr : submit_solution up n h m = Except.ok r) :
    r = "accepted" ∨ r = "rejected" ∨ ∃ e, r = "error: " ++ e := by
  cases n with
  | none => simp [submit_solution, normalize0x] at hr
  | some nv =>
    cases h with
    | none => simp [submit_solution, normalize0x] at hr
    | some hv =>
      cases m with
      | none => simp [submit_solution, normalize0x] at hr
      | some mv =>
        cases up with
        | ok v =>
          cases v with
          | true =>
            left
            simpa [submit_solution, normalize0x] using hr.symm
          | false =>
            right; left
            simpa [submit_solution, normalize0x] using hr.symm
        | exn e =>
          right; right
          exact ⟨e, by simpa [submit_solution, normalize0x] using hr.symm⟩

theorem submit_solution_ne_jnf {up : RpcOutcome} {n h m : Option String} {r : String}
    (hr : submit_solution up n h m = Except.ok r) : r ≠ "job-not-found" := by
  rcases submit_solution_ok hr with he | he | ⟨e, he⟩
  · rw [he]; decide
  · rw [he]; decide
  · rw [he]; exact error_ne_jnf e

/-! ### Lemmas: classifying the emitted replies -/

theorem isEarly_need (mid : Option Nat) :
    isEarlySubmitError (OutMsg.error mid (-1) "Need [nonce, headerHash, mixDigest]") = true := rfl

theorem isEarly_notauth (mid : Option Nat) :
    isEarlySubmitError (OutMsg.error mid 24 "Not authorized") = true := rfl

theorem isEarly_notenough (mid : Option Nat) :
    isEarlySubmitError (OutMsg.error mid 21 "Not enough parameters") = true := rfl

theorem isEarly_jnf (mid : Option Nat) :
    isEarlySubmitError (OutMsg.error mid 21 jobNotFoundMsg) = true := rfl

theorem isEarly_stale (mid : Option Nat) :
    isEarlySubmitError (OutMsg.error mid 21 "Job not found (stale)") = false := rfl

theorem isEarly_rej20 (mid : Option Nat) (r : String) :
    isEarlySubmitError (OutMsg.error mid 20 r) = false := rfl

theorem isEarly_rejneg1 (mid : Option Nat) (r : String) :
    isEarlySubmitError (OutMsg.error mid (-1) ("Rejected: " ++ r)) = false := by
  have hne : (("Rejected: " ++ r) == "Need [nonce, headerHash, mixDigest]") = false :=
    beq_eq_false_iff_ne.mpr (rejected_ne_need r)
  simp [isEarlySubmitError, hne]

theorem countedResp_result_bool (mid : Option Nat) (b : Bool) :
    countedResp (OutMsg.result_bool mid b) = true := rfl

theorem countedResp_error (mid : Option Nat) (code : Int) (m : String) :
    countedResp (OutMsg.error mid code m)
      = !isEarlySubmitError (OutMsg.error mid code m) := rfl


theorem flen_nil : (List.filter countedResp ([] : List OutMsg)).length = 0 := rfl

theorem flen_true (mid : Option Nat) :
    (List.filter countedResp [OutMsg.result_bool mid true]).length = 1 := rfl

theorem flen_notauth (mid : Option Nat) :
    (List.filter countedResp [OutMsg.error mid 24 "Not authorized"]).length = 0 := rfl

theorem flen_notenough (mid : Option Nat) :
    (List.filter countedResp [OutMsg.error mid 21 "Not enough parameters"]).length = 0 := rfl

theorem flen_jnfmsg (mid : Option Nat) :
    (List.filter countedResp [OutMsg.error mid 21 jobNotFoundMsg]).length = 0 := rfl

theorem flen_stale (mid : Option Nat) :
    (List.filter countedResp [OutMsg.error mid 21 "Job not found (stale)"]).length = 1 := rfl

theorem flen_rej20 (mid : Option Nat) (r : String) :
    (List.filter countedResp [OutMsg.error mid 20 ("Rejected: " ++ r)]).length = 1 := rfl

theorem flen_need (mid : Option Nat) :
    (List.filter countedResp
      [OutMsg.error mid (-1) "Need [nonce, headerHash, mixDigest]"]).length = 0 := rfl

theorem flen_rejneg1 (mid : Option Nat) (r : String) :
    (List.filter countedResp [OutMsg.error mid (-1) ("Rejected: " ++ r)]).length = 1 := by
  simp [List.filter, countedResp_error, isEarly_rejneg1]

/-! ### Lemmas: handler state shapes -/

theorem stratum_subscribe_state (jm : JobManagerState) (s : SessionState)
    (mid : Option Nat) :
    (stratum_subscribe jm s mid).1 = { s with protocol := "stratum" } := by
  cases hc : jm.current_job with
  | none => simp [stratum_subscribe, hc]
  | some job =>
    cases hs : send_stratum_job job true with
    | ok push => simp [stratum_subscribe, hc, hs]
    | error e => simp [stratum_subscribe, hc, hs]

theorem stratum_authorize_state (jm : JobManagerState) (s : SessionState)
    (mid : Option Nat) (params : List (Option String)) :
    (stratum_authorize jm s mid params).1
      = { s with worker_name := match params with
                                | [] => some "unknown"
                                | p :: _ => p,
                 authorized := true } := by
  cases hc : jm.current_job with
  | none => simp [stratum_authorize, hc]
  | some job =>
    cases hs : send_stratum_job job true with
    | ok push => simp [stratum_authorize, hc, hs]
    | error e => simp [stratum_authorize, hc, hs]

/-! ### Lemmas: share counters move together with counted submit replies -/

theorem ethproxy_submitwork_count (up : RpcOutcome) (s : SessionState)
    (mid : Option Nat) (params : List (Option String)) :
    (ethproxy_submitwork up s mid params).1.shares_accepted
      + (ethproxy_submitwork up s mid params).1.shares_rejected
      = s.shares_accepted + s.shares_rejected
        + ((ethproxy_submitwork up s mid params).2.1.filter countedResp).length := by
  rcases params with _ | ⟨n, _ | ⟨hh, _ | ⟨mm, rest⟩⟩⟩
  · simp [ethproxy_submitwork, flen_need]
  · simp [ethproxy_submitwork, flen_need]
  · simp [ethproxy_submitwork, flen_need]
  · cases hss : submit_solution up n hh mm with
    | error e =>
      simp [ethproxy_submitwork, hss, flen_nil]
    | ok result =>
      by_cases hacc : result = "accepted"
      · simp [ethproxy_submitwork, hss, hacc, flen_true]
        all_goals omega
      · simp [ethproxy_submitwork, hss, hacc, flen_rejneg1]
        all_goals omega

theorem stratum_submit_count (jm : JobManagerState) (up : RpcOutcome)
    (s : SessionState) (mid : Option Nat) (params : List (Option String)) :
    (stratum_submit jm up s mid params).1.shares_accepted
      + (stratum_submit jm up s mid params).1.shares_rejected
      = s.shares_accepted + s.shares_rejected
        + ((stratum_submit jm up s mid params).2.1.filter countedResp).length := by
  by_cases hauth : s.authorized
  case neg =>
    have hf : s.authorized = false := by simpa using hauth
    simp [stratum_submit, hf, flen_notauth]
  case pos =>
    rcases params with _ | ⟨w, _ | ⟨jid, _ | ⟨n, rest⟩⟩⟩
    · simp [stratum_submit, hauth, flen_notenough]
    · simp [stratum_submit, hauth, flen_notenough]
    · simp [stratum_submit, hauth, flen_notenough]
    · rcases rest with _ | ⟨r4, _ | ⟨r5, rrest⟩⟩ <;>
      · simp only [stratum_submit, hauth, Bool.not_true, Bool.false_eq_true, if_false]
        split
        · simp [flen_jnfmsg]
        · split
          · simp [flen_nil]
          · split
            · simp [flen_true]
              all_goals omega
            · split
              · simp [flen_stale]
                all_goals omega
              · simp [flen_rej20]
                all_goals omega

theorem dispatch_count (jm : JobManagerState) (up : RpcOutcome) (s : SessionState)
    (msg : InMsg) :
    (dispatch jm up s msg).1.shares_accepted + (dispatch jm up s msg).1.shares_rejected
      = s.shares_accepted + s.shares_rejected +
        (if isSubmitMethod msg.method
         then ((dispatch jm up s msg).2.1.filter countedResp).length else 0) := by
  obtain ⟨mid, method, params⟩ := msg
  by_cases h1 : method = "eth_submitLogin"
  · subst h1
    rw [show isSubmitMethod (InMsg.mk mid "eth_submitLogin" params).method = false from rfl]
    simp [dispatch, ethproxy_login]
  by_cases h2 : method = "eth_getWork"
  · subst h2
    rw [show isSubmitMethod (InMsg.mk mid "eth_getWork" params).method = false from rfl]
    cases hc : jm.current_job <;> simp [dispatch, ethproxy_getwork, hc]
  by_cases h3 : method = "eth_submitWork"
  · subst h3
    rw [show isSubmitMethod (InMsg.mk mid "eth_submitWork" params).method = true from rfl,
      if_pos rfl]
    exact ethproxy_submitwork_count up s mid params
  by_cases h4 : method = "eth_submitHashrate"
  · subst h4
    rw [show isSubmitMethod (InMsg.mk mid "eth_submitHashrate" params).method = false from rfl]
    simp [dispatch]
  by_cases h5 : method = "mining.subscribe"
  · subst h5
    rw [show isSubmitMethod (InMsg.mk mid "mining.subscribe" params).method = false from rfl]
    show (stratum_subscribe jm s mid).1.shares_accepted
        + (stratum_subscribe jm s mid).1.shares_rejected
      = s.shares_accepted + s.shares_rejected + (if false = true then
          ((stratum_subscribe jm s mid).2.1.filter countedResp).length else 0)
    rw [stratum_subscribe_state]
    simp
  by_cases h6 : method = "mining.authorize"
  · subst h6
    rw [show isSubmitMethod (InMsg.mk mid "mining.authorize" params).method = false from rfl]
    show (stratum_authorize jm s mid params).1.shares_accepted
        + (stratum_authorize jm s mid params).1.shares_rejected
      = s.shares_accepted + s.shares_rejected + (if false = true then
          ((stratum_authorize jm s mid params).2.1.filter countedResp).length else 0)
    rw [stratum_authorize_state]
    simp
  by_cases h7 : method = "mining.submit"
  · subst h7
    rw [show isSubmitMethod (InMsg.mk mid "mining.submit" params).method = true from rfl,
      if_pos rfl]
    exact stratum_submit_count jm up s mid params
  by_cases h8 : method = "mining.extranonce.subscribe"
  · subst h8
    rw [show isSubmitMethod (InMsg.mk mid "mining.extranonce.subscribe" params).method = false
      from rfl]
    simp [dispatch]
  · have hsm : isSubmitMethod method = false := by
      unfold isSubmitMethod
      rw [Bool.or_eq_false_iff]
      exact ⟨beq_eq_false_iff_ne.mpr h3, beq_eq_false_iff_ne.mpr h7⟩
    rw [show isSubmitMethod (InMsg.mk mid method params).method = isSubmitMethod method
      from rfl, hsm]
    simp [dispatch, h1, h2, h3, h4, h5, h6, h7, h8]

theorem runSession_counts :
    ∀ (steps : List StepInput) (s : SessionState),
      (runSession s steps).1.shares_accepted + (runSession s steps).1.shares_rejected
        = s.shares_accepted + s.shares_rejected
          + countedSubmitResponses (runSession s steps).2 := by
  intro steps
  induction steps with
  | nil =>
    intro s
    simp [runSession, countedSubmitResponses]
  | cons step rest ih =>
    intro s
    rcases hd : dispatch step.jm step.up s step.msg with ⟨s', outs, crashed⟩
    have hcount := dispatch_count step.jm step.up s step.msg
    rw [hd] at hcount
    simp only at hcount
    cases crashed with
    | true =>
      simp only [runSession, hd]
      simp [countedSubmitResponses]
      omega
    | false =>
      have hrest := ih s'
      simp only [runSession, hd]
      simp [countedSubmitResponses] at hrest ⊢
      omega

/-! ### Lemmas: the stale-job error is never emitted -/

theorem stale_ne_msg (mid mid2 : Option Nat) (code : Int) (m : String)
    (hne : code ≠ 21 ∨ m ≠ "Job not found (stale)") :
    OutMsg.error mid2 21 "Job not found (stale)" ≠ OutMsg.error mid code m := by
  intro he
  injection he with h1 h2 h3
  rcases hne with hc | hm
  · exact hc h2.symm
  · exact hm h3.symm

theorem send_stratum_job_shape {job : Job} {clean : Bool} {push : List OutMsg}
    (h : send_stratum_job job clean = Except.ok push) :
    ∃ d : Rat, push = [OutMsg.notify_set_difficulty d,
      OutMsg.notify_stratum job.job_id job.seed_hash job.header_hash clean] := by
  rcases hbb : (if job.boundary = "" then some 1 else pyInt16? job.boundary) with - | bi
  · simp only [send_stratum_job, hbb] at h
    cases h
  · simp only [send_stratum_job, hbb, Except.ok.injEq] at h
    exact ⟨_, h.symm⟩

theorem stratum_submit_no_stale (jm : JobManagerState) (up : RpcOutcome)
    (s : SessionState) (mid : Option Nat) (params : List (Option String))
    (mid2 : Option Nat) :
    OutMsg.error mid2 21 "Job not found (stale)" ∉ (stratum_submit jm up s mid params).2.1 := by
  by_cases hauth : s.authorized
  case neg =>
    have hf : s.authorized = false := by simpa using hauth
    intro hmem
    simp only [stratum_submit, hf, Bool.not_false, if_true, List.mem_singleton] at hmem
    exact stale_ne_msg mid mid2 24 "Not authorized" (Or.inl (by decide)) hmem
  case pos =>
    rcases params with _ | ⟨w, _ | ⟨jid, _ | ⟨n, rest⟩⟩⟩
    · intro hmem
      simp only [stratum_submit, hauth, Bool.not_true, Bool.false_eq_true, if_false,
        List.mem_singleton] at hmem
      exact stale_ne_msg mid mid2 21 "Not enough parameters" (Or.inr (by decide)) hmem
    · intro hmem
      simp only [stratum_submit, hauth, Bool.not_true, Bool.false_eq_true, if_false,
        List.mem_singleton] at hmem
      exact stale_ne_msg mid mid2 21 "Not enough parameters" (Or.inr (by decide)) hmem
    · intro hmem
      simp only [stratum_submit, hauth, Bool.not_true, Bool.false_eq_true, if_false,
        List.mem_singleton] at hmem
      exact stale_ne_msg mid mid2 21 "Not enough parameters" (Or.inr (by decide)) hmem
    · rcases rest with _ | ⟨r4, _ | ⟨r5, rrest⟩⟩ <;>
      · simp only [stratum_submit, hauth, Bool.not_true, Bool.false_eq_true, if_false]
        split
        · intro hmem
          rw [List.mem_singleton] at hmem
          exact stale_ne_msg mid mid2 21 jobNotFoundMsg (Or.inr (by decide)) hmem
        · split
          · simp
          · rename_i result heq
            split
            · intro hmem
              rw [List.mem_singleton] at hmem
              cases hmem
            · split
              · rename_i hjnf
                exact absurd hjnf (submit_solution_ne_jnf heq)
              · intro hmem
                rw [List.mem_singleton] at hmem
                exact stale_ne_msg mid mid2 20 _ (Or.inl (by decide)) hmem

theorem dispatch_no_stale (jm : JobManagerState) (up : RpcOutcome) (s : SessionState)
    (msg : InMsg) (mid2 : Option Nat) :
    OutMsg.error mid2 21 "Job not found (stale)" ∉ (dispatch jm up s msg).2.1 := by
  obtain ⟨mid, method, params⟩ := msg
  by_cases h1 : method = "eth_submitLogin"
  · subst h1
    show OutMsg.error mid2 21 "Job not found (stale)" ∉ (ethproxy_login s mid params).2.1
    simp [ethproxy_login]
  by_cases h2 : method = "eth_getWork"
  · subst h2
    show OutMsg.error mid2 21 "Job not found (stale)" ∉ (ethproxy_getwork jm s mid).2.1
    cases hc : jm.current_job <;> simp [ethproxy_getwork, hc]
  by_cases h3 : method = "eth_submitWork"
  · subst h3
    show OutMsg.error mid2 21 "Job not found (stale)"
      ∉ (ethproxy_submitwork up s mid params).2.1
    rcases params with _ | ⟨n, _ | ⟨hh, _ | ⟨mm, rest⟩⟩⟩
    · simp [ethproxy_submitwork]
    · simp [ethproxy_submitwork]
    · simp [ethproxy_submitwork]
    · cases hss : submit_solution up n hh mm with
      | error e => simp [ethproxy_submitwork, hss]
      | ok result =>
        by_cases hacc : result = "accepted"
        · simp [ethproxy_submitwork, hss, hacc]
        · simp [ethproxy_submitwork, hss, hacc]
  by_cases h4 : method = "eth_submitHashrate"
  · subst h4
    show OutMsg.error mid2 21 "Job not found (stale)" ∉ [OutMsg.result_bool mid true]
    simp
  by_cases h5 : method = "mining.subscribe"
  · subst h5
    show OutMsg.error mid2 21 "Job not found (stale)" ∉ (stratum_subscribe jm s mid).2.1
    cases hc : jm.current_job with
    | none => simp [stratum_subscribe, hc]
    | some job =>
      cases hs : send_stratum_job job true with
      | error e => simp [stratum_subscribe, hc, hs]
      | ok push =>
        obtain ⟨d, hd⟩ := send_stratum_job_shape hs
        simp [stratum_subscribe, hc, hs, hd]
  by_cases h6 : method = "mining.authorize"
  · subst h6
    show OutMsg.error mid2 21 "Job not found (stale)"
      ∉ (stratum_authorize jm s mid params).2.1
    cases hc : jm.current_job with
    | none => simp [stratum_authorize, hc]
    | some job =>
      cases hs : send_stratum_job job true with
      | error e => simp [stratum_authorize, hc, hs]
      | ok push =>
        obtain ⟨d, hd⟩ := send_stratum_job_shape hs
        simp [stratum_authorize, hc, hs, hd]
  by_cases h7 : method = "mining.submit"
  · subst h7
    exact stratum_submit_no_stale jm up s mid params mid2
  by_cases h8 : method = "mining.extranonce.subscribe"
  · subst h8
    show OutMsg.error mid2 21 "Job not found (stale)" ∉ [OutMsg.result_bool mid true]
    simp
  · simp [dispatch, h1, h2, h3, h4, h5, h6, h7, h8]

/-- C9: `submit_solution` never produces the string `"job-not-found"`: a
returned result is `"accepted"`, `"rejected"` or `"error: <detail>"`, for
every input and upstream behaviour (with `None` fields it raises instead
of returning).  Consequently no dispatch of any message ever emits the
error reply `21 "Job not found (stale)"`: that branch of `_stratum_submit`
is unreachable. -/
theorem C9_no_job_not_found :
    (∀ (up : RpcOutcome) (n h m : Option String) (r : String),
      submit_solution up n h m = Except.ok r →
      r ≠ "job-not-found" ∧
        (r = "accepted" ∨ r = "rejected" ∨ ∃ e, r = "error: " ++ e)) ∧
    (∀ (jm : JobManagerState) (up : RpcOutcome) (s : SessionState) (msg : InMsg)
      (mid2 : Option Nat),
      OutMsg.error mid2 21 "Job not found (stale)" ∉ (dispatch jm up s msg).2.1) :=
  ⟨fun _ _ _ _ _ hr => ⟨submit_solution_ne_jnf hr, submit_solution_ok hr⟩,
   dispatch_no_stale⟩

/-- C9 witness: the accepted verdict at concrete inputs, and the stale
error absent from the reply to a concrete unauthorized submit. -/
theorem C9_witness :
    ("accepted" ≠ "job-not-found" ∧
      ("accepted" = "accepted" ∨ "accepted" = "rejected" ∨
        ∃ e, "accepted" = "error: " ++ e)) ∧
    OutMsg.error (some 1) 21 "Job not found (stale)"
      ∉ (dispatch initJM (RpcOutcome.ok true) freshSession c2_step.msg).2.1 :=
  ⟨C9_no_job_not_found.1 (RpcOutcome.ok true) (some "n") (some "h") (some "m")
      "accepted" rfl,
   C9_no_job_not_found.2 initJM (RpcOutcome.ok true) freshSession c2_step.msg (some 1)⟩

/-! ### Lemmas: which handlers touch `protocol` -/

theorem ethproxy_submitwork_protocol (up : RpcOutcome) (s : SessionState)
    (mid : Option Nat) (params : List (Option String)) :
    (ethproxy_submitwork up s mid params).1.protocol = s.protocol := by
  rcases params with _ | ⟨n, _ | ⟨hh, _ | ⟨mm, rest⟩⟩⟩
  · rfl
  · rfl
  · rfl
  · cases hss : submit_solution up n hh mm with
    | error e => simp [ethproxy_submitwork, hss]
    | ok result =>
      by_cases hacc : result = "accepted" <;> simp [ethproxy_submitwork, hss, hacc]

theorem stratum_submit_protocol (jm : JobManagerState) (up : RpcOutcome)
    (s : SessionState) (mid : Option Nat) (params : List (Option String)) :
    (stratum_submit jm up s mid params).1.protocol = s.protocol := by
  by_cases hauth : s.authorized
  case neg =>
    have hf : s.authorized = false := by simpa using hauth
    simp [stratum_submit, hf]
  case pos =>
    rcases params with _ | ⟨w, _ | ⟨jid, _ | ⟨n, rest⟩⟩⟩
    · simp [stratum_submit, hauth]
    · simp [stratum_submit, hauth]
    · simp [stratum_submit, hauth]
    · rcases rest with _ | ⟨r4, _ | ⟨r5, rrest⟩⟩ <;>
      · simp only [stratum_submit, hauth, Bool.not_true, Bool.false_eq_true, if_false]
        split
        · rfl
        · split
          · rfl
          · split
            · rfl
            · split
              · rfl
              · rfl

/-- C7 counterexample: `mining.authorize` as the first message leaves
`protocol` at `"unknown"`, not `"stratum"` as the claim requires. -/
theorem C7_counterexample :
    (dispatch initJM (RpcOutcome.ok true) freshSession authorizeStep.msg).1.protocol
      = "unknown" ∧
    (dispatch initJM (RpcOutcome.ok true) freshSession authorizeStep.msg).1.protocol
      ≠ "stratum" := by
  constructor
  · rfl
  · decide

/-- C7 (amended): every `eth_submitLogin` sets `protocol` to `"ethproxy"`
and every `mining.subscribe` sets it to `"stratum"`, unconditionally, even
when it was already set to the other dialect; `mining.authorize` and every
other message leave `protocol` unchanged. -/
theorem C7_amended_protocol (jm : JobManagerState) (up : RpcOutcome)
    (s : SessionState) (msg : InMsg) :
    (msg.method = "eth_submitLogin" →
      (dispatch jm up s msg).1.protocol = "ethproxy") ∧
    (msg.method = "mining.subscribe" →
      (dispatch jm up s msg).1.protocol = "stratum") ∧
    (msg.method ≠ "eth_submitLogin" → msg.method ≠ "mining.subscribe" →
      (dispatch jm up s msg).1.protocol = s.protocol) := by
  obtain ⟨mid, method, params⟩ := msg
  refine ⟨?_, ?_, ?_⟩
  · intro hm
    have hm2 : method = "eth_submitLogin" := hm
    subst hm2
    rfl
  · intro hm
    have hm2 : method = "mining.subscribe" := hm
    subst hm2
    show (stratum_subscribe jm s mid).1.protocol = "stratum"
    rw [stratum_subscribe_state]
  · intro hne1 hne2
    have h1 : method ≠ "eth_submitLogin" := hne1
    have h5 : method ≠ "mining.subscribe" := hne2
    by_cases h2 : method = "eth_getWork"
    · subst h2
      show (ethproxy_getwork jm s mid).1.protocol = s.protocol
      cases hc : jm.current_job <;> simp [ethproxy_getwork, hc]
    by_cases h3 : method = "eth_submitWork"
    · subst h3
      exact ethproxy_submitwork_protocol up s mid params
    by_cases h4 : method = "eth_submitHashrate"
    · subst h4
      rfl
    by_cases h6 : method = "mining.authorize"
    · subst h6
      show (stratum_authorize jm s mid params).1.protocol = s.protocol
      rw [stratum_authorize_state]
    by_cases h7 : method = "mining.submit"
    · subst h7
      exact stratum_submit_protocol jm up s mid params
    by_cases h8 : method = "mining.extranonce.subscribe"
    · subst h8
      rfl
    · simp [dispatch, h1, h2, h3, h4, h5, h6, h7, h8]

/-- C7 witness: a first `mining.subscribe` sets the stratum dialect, and a
first `eth_getWork` leaves the protocol unknown. -/
theorem C7_witness :
    (dispatch initJM (RpcOutcome.ok true) freshSession
      { id := some 1, method := "mining.subscribe", params := [] }).1.protocol
      = "stratum" ∧
    (dispatch initJM (RpcOutcome.ok true) freshSession
      { id := some 1, method := "eth_getWork", params := [] }).1.protocol
      = freshSession.protocol :=
  ⟨(C7_amended_protocol initJM (RpcOutcome.ok true) freshSession
      { id := some 1, method := "mining.subscribe", params := [] }).2.1 rfl,
   (C7_amended_protocol initJM (RpcOutcome.ok true) freshSession
      { id := some 1, method := "eth_getWork", params := [] }).2.2
      (by decide) (by decide)⟩

/-- C2 counterexample: a single unauthorized `mining.submit` draws one
submit response (`24 "Not authorized"`) while both counters stay 0, so
`sharesAccepted + sharesRejected` is not the number of submit responses. -/
theorem C2_counterexample :
    (runSession freshSession [c2_step]).1.shares_accepted
      + (runSession freshSession [c2_step]).1.shares_rejected = 0 ∧
    submitResponseCount (runSession freshSession [c2_step]).2 = 1 := by
  constructor
  · rfl
  · rfl

/-- C2 (amended): for any session and any received sequence,
`sharesAccepted + sharesRejected` equals the number of submit responses
that are not early-return error replies (`Not authorized`, `Not enough
parameters`, `Need [nonce, headerHash, mixDigest]`, and the
`jobNotFoundMsg` reply); those early replies leave the counters
untouched, and a submit whose forwarding raises emits no response and no
increment. -/
theorem C2_amended_share_accounting (steps : List StepInput) :
    (runSession freshSession steps).1.shares_accepted
      + (runSession freshSession steps).1.shares_rejected
      = countedSubmitResponses (runSession freshSession steps).2 := by
  have h := runSession_counts steps freshSession
  simpa [freshSession] using h

/-- C3 counterexample: authorize, then a 3-param `mining.submit` with an
unknown job id: the session replies with the error `21` as claimed, but
`sharesRejected` stays 0, not 1. -/
theorem C3_counterexample :
    (runSession freshSession [authorizeStep, c3_sub]).2
      = [(authorizeStep.msg, [OutMsg.result_bool (some 1) true]),
         (c3_sub.msg, [OutMsg.error (some 2) 21 jobNotFoundMsg])] ∧
    (runSession freshSession [authorizeStep, c3_sub]).1.shares_rejected = 0 := by
  constructor
  · rfl
  · rfl

/-- C3 (amended): an authorized 3-param `mining.submit` whose job lookup
fails replies exactly the error `[21, "Job not found, can..t reconstruct
submission", null]` and changes nothing else: the session state, and in
particular `sharesRejected`, is untouched. -/
theorem C3_amended_job_not_found (jm : JobManagerState) (up : RpcOutcome)
    (s : SessionState) (mid : Option Nat) (w jid n : Option String)
    (hauth : s.authorized = true) (hfind : find_job jm jid none = none) :
    dispatch jm up s { id := mid, method := "mining.submit", params := [w, jid, n] }
      = (s, [OutMsg.error mid 21 jobNotFoundMsg], false) := by
  show stratum_submit jm up s mid [w, jid, n] = _
  simp only [stratum_submit, hauth, Bool.not_true, Bool.false_eq_true, if_false, hfind]
  simp [truthyOpt]

/-- C3 witness: the amended behaviour at a concrete submit. -/
theorem C3_witness :
    dispatch initJM (RpcOutcome.ok true) { freshSession with authorized := true }
      { id := some 2, method := "mining.submit",
        params := [some "w", some "0xdead", some "0x1234"] }
      = ({ freshSession with authorized := true },
         [OutMsg.error (some 2) 21 jobNotFoundMsg], false) :=
  C3_amended_job_not_found initJM (RpcOutcome.ok true)
    { freshSession with authorized := true } (some 2)
    (some "w") (some "0xdead") (some "0x1234") rfl (by decide)

/-- C4: the code, not the claim, is at fault here.  An authorized 3-param
`mining.submit` against a cached job reconstructs the header hash but
leaves the mix digest `None`; `submit_solution` then evaluates
`None.startswith("0x")`, raising `AttributeError` outside its `try`, so no
reply is sent, no counter moves, and the session closes — contradicting
the documented behaviour of forwarding the incomplete solution upstream. -/
theorem C4_crash_on_incomplete_submit :
    (runSession freshSession [authorizeStep, c4_sub]).2
      = [(authorizeStep.msg, [OutMsg.result_bool (some 1) true]), (c4_sub.msg, [])] ∧
    (runSession freshSession [authorizeStep, c4_sub]).1.closed = true ∧
    (runSession freshSession [authorizeStep, c4_sub]).1.shares_accepted = 0 ∧
    (runSession freshSession [authorizeStep, c4_sub]).1.shares_rejected = 0 ∧
    submit_solution c4_sub.up (some "0x9999") (some c4_job.header_hash) none
      = Except.error () := by
  refine ⟨rfl, rfl, rfl, rfl, rfl⟩

/-- C8 counterexample: a non-empty non-hex boundary (`"zz"`) raises
`ValueError` out of `send_stratum_job` — nothing is sent, no `1.0`
substituted; an empty boundary silently uses divisor 1, sending the
difficulty `(2^256 − 1)/1 ≠ 1.0`. -/
theorem C8_counterexample :
    send_stratum_job c8_jobBad true = Except.error () ∧
    send_stratum_job c8_jobEmpty true
      = Except.ok [OutMsg.notify_set_difficulty
          (((2 : Rat) ^ 256 - 1) / ((1 : Nat) : Rat)),
        OutMsg.notify_stratum "0x1" "s" "h" true] ∧
    ((2 : Rat) ^ 256 - 1) / ((1 : Nat) : Rat) ≠ 1 := by
  refine ⟨rfl, rfl, ?_⟩
  norm_num

/-- C8 (amended): a stratum work push sends `mining.set_difficulty` first
and `mining.notify` with `[jobId, seedHash, headerHash, clean]` second.
The difficulty is `(2^256 − 1)/intFromHex(boundary)` when the boundary
parses to a positive value, `1.0` when it parses to zero, and
`(2^256 − 1)/1` when the boundary is the empty string; a non-empty
unparseable boundary raises `ValueError` and nothing is sent. -/
theorem C8_amended_difficulty (job : Job) (clean : Bool) :
    (job.boundary = "" →
      send_stratum_job job clean
        = Except.ok [OutMsg.notify_set_difficulty
            (((2 : Rat) ^ 256 - 1) / ((1 : Nat) : Rat)),
          OutMsg.notify_stratum job.job_id job.seed_hash job.header_hash clean]) ∧
    (∀ n : Nat, job.boundary ≠ "" → pyInt16? job.boundary = some n → 0 < n →
      send_stratum_job job clean
        = Except.ok [OutMsg.notify_set_difficulty
            (((2 : Rat) ^ 256 - 1) / ((n : Nat) : Rat)),
          OutMsg.notify_stratum job.job_id job.seed_hash job.header_hash clean]) ∧
    (job.boundary ≠ "" → pyInt16? job.boundary = some 0 →
      send_stratum_job job clean
        = Except.ok [OutMsg.notify_set_difficulty 1,
          OutMsg.notify_stratum job.job_id job.seed_hash job.header_hash clean]) ∧
    (job.boundary ≠ "" → pyInt16? job.boundary = none →
      send_stratum_job job clean = Except.error ()) := by
  refine ⟨?_, ?_, ?_, ?_⟩
  · intro hb
    simp [send_stratum_job, hb]
  · intro n hb hp hn
    simp only [send_stratum_job, hb, if_neg hb, hp]
    simp [hn]
  · intro hb hp
    simp only [send_stratum_job, hb, if_neg hb, hp]
    simp
  · intro hb hp
    simp only [send_stratum_job, hb, if_neg hb, hp]
    simp

/-- C8 witness: the amended behaviour at the two concrete boundary jobs. -/
theorem C8_witness :
    send_stratum_job c8_jobEmpty true
      = Except.ok [OutMsg.notify_set_difficulty
          (((2 : Rat) ^ 256 - 1) / ((1 : Nat) : Rat)),
        OutMsg.notify_stratum c8_jobEmpty.job_id c8_jobEmpty.seed_hash
          c8_jobEmpty.header_hash true] ∧
    send_stratum_job c8_jobBad true = Except.error () :=
  ⟨(C8_amended_difficulty c8_jobEmpty true).1 rfl,
   (C8_amended_difficulty c8_jobBad true).2.2.2 (by decide) rfl⟩
